import Mathlib

/-!
Verification of the multilayer recurrent core of `pylego` (`src/pylego/ops.py`):
`MultilayerLSTMCell` and the sequence driver `MultilayerLSTM`.

Tensors are embedded as lists of rational-valued rows (one row per batch
element); the nonlinearities `sigmoid` and `tanh` of the underlying
`nn.LSTMCell` are abstracted as explicit function parameters `sg` and `th`,
since none of the verified properties depend on their concrete shape.
-/

namespace Pylego

/-- One row of a tensor (the innermost dimension), with rational entries. -/
abbrev Vec := List ℚ

/-- A batched tensor of shape `[batch, d]`: one `Vec` per batch element. -/
abbrev Mat := List Vec

/-- Dot product (truncating to the shorter operand, as a helper for `matVec`). -/
def dot (a b : Vec) : ℚ := (List.zipWith (· * ·) a b).sum

/-- Elementwise sum of two vectors. -/
def vAdd (a b : Vec) : Vec := List.zipWith (· + ·) a b

/-- Elementwise (Hadamard) product of two vectors. -/
def vMul (a b : Vec) : Vec := List.zipWith (· * ·) a b

/-- Matrix–vector product, one dot product per matrix row. -/
def matVec (m : Mat) (v : Vec) : Vec := m.map (fun r => dot r v)

/-- The zero vector of width `n`. -/
def zeros (n : ℕ) : Vec := List.replicate n 0

/-- The all-zero matrix with `b` rows of width `n` (`tensor.new_zeros([b, n])`). -/
def zerosM (b n : ℕ) : Mat := List.replicate b (zeros n)

/-- Row-wise concatenation `torch.cat([a, b], dim=1)`. -/
def rowAppend (a b : Mat) : Mat := List.zipWith (· ++ ·) a b

/-- The construction-time configuration of `MultilayerLSTMCell.__init__`. -/
structure Config where
  input_size : ℕ
  hidden_size : ℕ
  layers : ℕ
  every_layer_input : Bool
  use_previous_higher : Bool
deriving DecidableEq

/-- Adds `amt` to every entry except the first: the loop
`for i in range(1, layers): input_sizes[i] += input_size` on a list of length
`layers`. -/
def addTail (amt : ℕ) : List ℕ → List ℕ
  | [] => []
  | x :: xs => x :: xs.map (· + amt)

/-- Adds `amt` to every entry except the last: the loop
`for i in range(layers - 1): input_sizes[i] += hidden_size` on a list of length
`layers`. -/
def addInit (amt : ℕ) : List ℕ → List ℕ
  | [] => []
  | [x] => [x]
  | x :: y :: xs => (x + amt) :: addInit amt (y :: xs)

/-- The per-layer input widths computed by `MultilayerLSTMCell.__init__`
(ops.py lines 217–223): start from `[input_size] + [hidden_size] * (layers-1)`,
add `input_size` to layers 1..L-1 when `every_layer_input`, and add
`hidden_size` to layers 0..L-2 when `use_previous_higher`. -/
def inputSizes (cfg : Config) : List ℕ :=
  let s0 := cfg.input_size :: List.replicate (cfg.layers - 1) cfg.hidden_size
  let s1 := if cfg.every_layer_input then addTail cfg.input_size s0 else s0
  if cfg.use_previous_higher then addInit cfg.hidden_size s1 else s1

/-- The learned parameters of one `nn.LSTMCell`: input-to-hidden and
hidden-to-hidden weight matrices (each `4*hidden_size` rows, gate order
i, f, g, o) and the two bias vectors. -/
structure LSTMCellParams where
  weight_ih : Mat
  weight_hh : Mat
  bias_ih : Vec
  bias_hh : Vec
deriving DecidableEq

/-- The standard `nn.LSTMCell` recurrence on one batch row:
`pre = W_ih x + b_ih + W_hh h + b_hh`, gates `i, f, g, o` are the four
`hidden_size`-chunks of `pre` (through `sg` = sigmoid, `th` = tanh for `g`),
`c' = f∘c + i∘g`, `h' = o∘th(c')`. Returns `(h', c')`. -/
def lstmCellRow (sg th : ℚ → ℚ) (hs : ℕ) (p : LSTMCellParams) (x h c : Vec) : Vec × Vec :=
  let pre := vAdd (vAdd (matVec p.weight_ih x) p.bias_ih) (vAdd (matVec p.weight_hh h) p.bias_hh)
  let gi := (pre.take hs).map sg
  let gf := ((pre.drop hs).take hs).map sg
  let gg := ((pre.drop (2 * hs)).take hs).map th
  let go := ((pre.drop (3 * hs)).take hs).map sg
  let cNew := vAdd (vMul gf c) (vMul gi gg)
  let hNew := vMul go (cNew.map th)
  (hNew, cNew)

/-- Three-way `zipWith`, used to batch `lstmCellRow` over the batch rows. -/
def zipWith3 (f : α → β → γ → δ) : List α → List β → List γ → List δ
  | a :: as, b :: bs, c :: cs => f a b c :: zipWith3 f as bs cs
  | _, _, _ => []

/-- Batched `nn.LSTMCell` application: row `b` of the result is
`lstmCellRow` on row `b` of the input and of the carried `(h, c)` state; an
absent state is replaced by all-zero tensors of shape `[batch, hidden_size]`,
exactly as `nn.LSTMCell` does for `hx=None`. -/
def lstmCellB (sg th : ℚ → ℚ) (hs : ℕ) (p : LSTMCellParams) (x : Mat)
    (hc : Option (Mat × Mat)) : Mat × Mat :=
  let hc0 := hc.getD (zerosM x.length hs, zerosM x.length hs)
  let rows := zipWith3 (fun xr hr cr => lstmCellRow sg th hs p xr hr cr) x hc0.1 hc0.2
  (rows.map Prod.fst, rows.map Prod.snd)

/-- The per-layer input assembly of `MultilayerLSTMCell.forward`
(ops.py lines 236–243): re-concatenate the raw input when `every_layer_input`
and `layer > 0`, then concatenate the previous timestep's next-higher hidden
state when `use_previous_higher` and the layer is not topmost, substituting
zeros of width `hidden_size` when that entry of `hx` is `None`. -/
def assembleInput (cfg : Config) (input_ : Mat) (hxl : List (Option (Mat × Mat)))
    (layer : ℕ) (recent : Mat) : Mat :=
  let r1 := if 0 < layer ∧ cfg.every_layer_input then rowAppend recent input_ else recent
  if layer + 1 < cfg.layers ∧ cfg.use_previous_higher then
    let prev := match hxl.getD (layer + 1) none with
      | none => zerosM r1.length cfg.hidden_size
      | some hc => hc.1
    rowAppend r1 prev
  else r1

/-- The `for layer in range(self.layers)` loop of `MultilayerLSTMCell.forward`,
unrolled by the number of remaining layers: each iteration assembles the
layer's input, applies that layer's `nn.LSTMCell`, appends the `(h, c)` pair to
the outputs and feeds the new hidden state to the next layer. -/
def cellLoop (sg th : ℚ → ℚ) (cfg : Config) (cells : List LSTMCellParams) (input_ : Mat)
    (hxl : List (Option (Mat × Mat))) : ℕ → ℕ → Mat → List (Mat × Mat)
  | 0, _, _ => []
  | rem + 1, layer, recent =>
    let assembled := assembleInput cfg input_ hxl layer recent
    let out := lstmCellB sg th cfg.hidden_size (cells.getD layer ⟨[], [], [], []⟩)
      assembled (hxl.getD layer none)
    out :: cellLoop sg th cfg cells input_ hxl rem (layer + 1) out.1

/-- `MultilayerLSTMCell.forward` (ops.py lines 226–247): an absent `hx`
becomes `[None] * layers`; the result is the list of the `layers` new
`(h, c)` pairs in ascending layer order. -/
def cellForward (sg th : ℚ → ℚ) (cfg : Config) (cells : List LSTMCellParams)
    (input_ : Mat) (hx : Option (List (Mat × Mat))) : List (Mat × Mat) :=
  let hxl := match hx with
    | none => List.replicate cfg.layers none
    | some l => l.map some
  cellLoop sg th cfg cells input_ hxl cfg.layers 0 input_

/-- The per-timestep output `torch.cat([h[:, None, None, :] for (h, c) in hx],
dim=2)` (ops.py line 266): for each batch row `b`, the list over layers of
that layer's hidden row. -/
def snapshot (stack : List (Mat × Mat)) : List (List Vec) :=
  match stack with
  | [] => []
  | hc :: _ => (List.range hc.1.length).map (fun b => stack.map (fun p => p.1.getD b []))

/-- The reset threshold `1e-6` of ops.py line 269. -/
def resetEps : ℚ := mkRat 1 1000000

/-- Scales row `b` of `m` by `1 - rt[b]`: the broadcast product
`h * (1.0 - reset_t)` with `reset_t` of shape `[batch, 1]`. -/
def scaleRows (rt : Vec) (m : Mat) : Mat :=
  List.zipWith (fun r row => row.map (fun q => q * (1 - r))) rt m

/-- The reset block of `MultilayerLSTM.forward` (ops.py lines 267–271): when
any batch element's reset exceeds `1e-6`, every layer's hidden and cell
tensors are multiplied by `1 - reset_t`; otherwise the stack is untouched. -/
def resetStep (stack : List (Mat × Mat)) (rt : Vec) : List (Mat × Mat) :=
  if rt.any (fun r => resetEps < r) then
    stack.map (fun hc => (scaleRows rt hc.1, scaleRows rt hc.2))
  else stack

/-- The timestep loop of `MultilayerLSTM.forward` (ops.py lines 262–271),
with the input given as its list of timestep slices `input_[:, t]` and the
reset signal as the list of its slices `reset[:, t]`. Returns the per-timestep
outputs together with the pre-reset and post-reset (carried) stacks of every
timestep, in order. -/
def run (sg th : ℚ → ℚ) (cfg : Config) (cells : List LSTMCellParams) :
    List Mat → Option (List Vec) → Option (List (Mat × Mat)) →
      List (List (List Vec)) × List (List (Mat × Mat)) × List (List (Mat × Mat))
  | [], _, _ => ([], [], [])
  | x :: xs, rs, hx =>
    let stack := cellForward sg th cfg cells x hx
    let out := snapshot stack
    let stack' := match rs with
      | none => stack
      | some l => resetStep stack (l.headD [])
    let rest := run sg th cfg cells xs (rs.map List.tail) (some stack')
    (out :: rest.1, stack :: rest.2.1, stack' :: rest.2.2)

/-- The final `torch.cat(outputs, dim=1)` (ops.py line 273): transposes the
time-major per-timestep outputs into one batch-major value indexed
`[batch][time][layer][unit]`. -/
def catTime (outs : List (List (List Vec))) : List (List (List Vec)) :=
  match outs with
  | [] => []
  | o :: _ => (List.range o.length).map (fun b => outs.map (fun ot => ot.getD b []))

/-- `MultilayerLSTM.forward` (ops.py lines 259–273): run the cell over every
timestep starting from an absent state and concatenate the outputs, giving a
value of shape `[batch, length, layers, hidden_size]`. -/
def lstmForward (sg th : ℚ → ℚ) (cfg : Config) (cells : List LSTMCellParams)
    (xs : List Mat) (rs : Option (List Vec)) : List (List (List Vec)) :=
  catTime (run sg th cfg cells xs rs none).1

/-- Well-formedness of a `[n, k]`-shaped tensor: `n` rows, each of width `k`. -/
def WFmat (n k : ℕ) (m : Mat) : Prop := m.length = n ∧ ∀ r ∈ m, r.length = k

/-- Well-formedness of one `nn.LSTMCell`'s parameters for hidden width `hs`:
both weight matrices and both biases have `4 * hs` rows/entries. -/
def WFP (hs : ℕ) (p : LSTMCellParams) : Prop :=
  p.weight_ih.length = 4 * hs ∧ p.bias_ih.length = 4 * hs ∧
    p.weight_hh.length = 4 * hs ∧ p.bias_hh.length = 4 * hs

instance (hs : ℕ) (p : LSTMCellParams) : Decidable (WFP hs p) := by
  unfold WFP; infer_instance

/-- The per-batch-row view of one layer's carried state: the `(h, c)` rows for
batch element `b`, with the `hx=None` zero-substitution of `nn.LSTMCell`. -/
def rowOfState (hs b : ℕ) : Option (Mat × Mat) → Vec × Vec
  | none => (zeros hs, zeros hs)
  | some hc => (hc.1.getD b [], hc.2.getD b [])

/-- Length bound on the carried stack entries: every layer's `(h, c)` pair has
`n` batch rows. -/
def hxlLen (n : ℕ) (hxl : List (Option (Mat × Mat))) : Prop :=
  ∀ j m1 m2, hxl.getD j none = some (m1, m2) → m1.length = n ∧ m2.length = n

/-- Full well-formedness of the carried stack entries for batch `n` and hidden
width `hs`. -/
def WFhx (n hs : ℕ) (hxl : List (Option (Mat × Mat))) : Prop :=
  ∀ j m1 m2, hxl.getD j none = some (m1, m2) → WFmat n hs m1 ∧ WFmat n hs m2

/-- Full well-formedness of a produced stack: every layer's `(h, c)` pair is an
`[n, hs]` tensor pair. -/
def WFstack (n hs : ℕ) (st : List (Mat × Mat)) : Prop :=
  ∀ hc ∈ st, WFmat n hs hc.1 ∧ WFmat n hs hc.2

/-- A concrete single-layer parameter set used to instantiate the general
theorems: hidden width 1, gate order i, f, g, o, with `i = o = 1`, `f = 0` and
`g = x + h` under identity activations. -/
def cellP : LSTMCellParams :=
  ⟨[[0], [0], [1], [0]], [[0], [0], [1], [0]], [1, 0, 0, 1], [0, 0, 0, 0]⟩

/-- A concrete single-layer configuration with scalar input and hidden state. -/
def cfgOne : Config := ⟨1, 1, 1, false, false⟩

/-- State-passing variant of the `MultilayerLSTMCell.forward` loop, in which
the `hx` list is threaded through every iteration exactly as the mutable
Python list is: the loop body reads `hx[layer]` and `hx[layer + 1]` but never
assigns into `hx`, so each iteration passes it on unchanged. -/
def cellLoopS (sg th : ℚ → ℚ) (cfg : Config) (cells : List LSTMCellParams) (input_ : Mat) :
    ℕ → ℕ → Mat → List (Option (Mat × Mat)) →
      List (Mat × Mat) × List (Option (Mat × Mat))
  | 0, _, _, hxl => ([], hxl)
  | rem + 1, layer, recent, hxl =>
    let assembled := assembleInput cfg input_ hxl layer recent
    let out := lstmCellB sg th cfg.hidden_size (cells.getD layer ⟨[], [], [], []⟩)
      assembled (hxl.getD layer none)
    let rest := cellLoopS sg th cfg cells input_ rem (layer + 1) out.1 hxl
    (out :: rest.1, rest.2)

/-- `MultilayerLSTMCell.forward` in the state-passing presentation: returns
both the new stack and the final value of the `hx` variable. -/
def cellForwardS (sg th : ℚ → ℚ) (cfg : Config) (cells : List LSTMCellParams)
    (input_ : Mat) (hx : Option (List (Mat × Mat))) :
    List (Mat × Mat) × List (Option (Mat × Mat)) :=
  let hxl := match hx with
    | none => List.replicate cfg.layers none
    | some l => l.map some
  cellLoopS sg th cfg cells input_ cfg.layers 0 input_ hxl

/-- The per-batch-row view of a whole stack: for each layer, the `(h, c)` rows
of batch element `b`. -/
def stackRow (b : ℕ) (st : List (Mat × Mat)) : List (Vec × Vec) :=
  st.map (fun hc => (hc.1.getD b [], hc.2.getD b []))

/-- The spec's refinement target for the single-layer scenario: "a single
standard LSTM cell stepped over the sequence" — the `nn.LSTMCell` recurrence
(`lstmCellB`) applied directly timestep by timestep, carrying one `(h, c)`
pair (absent at the start), emitting each timestep's hidden output. -/
def singleLSTMSeq (sg th : ℚ → ℚ) (hs : ℕ) (p : LSTMCellParams) :
    List Mat → Option (Mat × Mat) → List Mat
  | [], _ => []
  | x :: xs, hc =>
    let o := lstmCellB sg th hs p x hc
    o.1 :: singleLSTMSeq sg th hs p xs (some o)

/-- The per-batch-row view of the carried stack entry `j`: `None` stays
`None`, a stored `(h, c)` pair is projected to batch row `b`. -/
def rowHxl (b : ℕ) (hxl : List (Option (Mat × Mat))) (j : ℕ) : Option (Vec × Vec) :=
  (hxl.getD j none).map (fun hc => (hc.1.getD b [], hc.2.getD b []))

/-- Relation between the reset signals of two runs, seen from batch row `b`:
both absent, or both present with well-shaped slices, equal values for row `b`
at every timestep, and row `b`'s values each either exactly `0` or above the
`1e-6` threshold. -/
def resetsRel (n b len : ℕ) (o1 o2 : Option (List Vec)) : Prop :=
  (o1 = none ∧ o2 = none) ∨
    ∃ l1 l2, o1 = some l1 ∧ o2 = some l2 ∧ l1.length = len ∧ l2.length = len ∧
      (∀ v ∈ l1, v.length = n) ∧ (∀ v ∈ l2, v.length = n) ∧
      ∀ t, t < len →
        (l1.getD t []).getD b 0 = (l2.getD t []).getD b 0 ∧
          ((l1.getD t []).getD b 0 = 0 ∨ resetEps < (l1.getD t []).getD b 0)

/-- Relation between the carried states of two runs, seen from batch row `b`:
both absent, or both present with `n`-row tensors and equal rows for `b`. -/
def hxRel (n b : ℕ) (o1 o2 : Option (List (Mat × Mat))) : Prop :=
  (o1 = none ∧ o2 = none) ∨
    ∃ st1 st2, o1 = some st1 ∧ o2 = some st2 ∧ stackRow b st1 = stackRow b st2 ∧
      (∀ hc ∈ st1, hc.1.length = n ∧ hc.2.length = n) ∧
      (∀ hc ∈ st2, hc.1.length = n ∧ hc.2.length = n)

lemma length_addTail (amt : ℕ) (l : List ℕ) : (addTail amt l).length = l.length := by
  cases l <;> simp [addTail]

lemma length_addInit (amt : ℕ) : ∀ l : List ℕ, (addInit amt l).length = l.length
  | [] => by simp [addInit]
  | [x] => by simp [addInit]
  | x :: y :: xs => by
    simpa [addInit] using length_addInit amt (y :: xs)

lemma getD_addTail_zero (amt : ℕ) (l : List ℕ) (h : 0 < l.length) :
    (addTail amt l).getD 0 0 = l.getD 0 0 := by
  cases l with
  | nil => simp at h
  | cons x xs => simp [addTail]

lemma getD_addTail_succ (amt : ℕ) (l : List ℕ) (i : ℕ) (h : i + 1 < l.length) :
    (addTail amt l).getD (i + 1) 0 = l.getD (i + 1) 0 + amt := by
  cases l with
  | nil => simp at h
  | cons x xs =>
    have hi : i < xs.length := by simpa using h
    simp only [addTail, List.getD_cons_succ]
    rw [List.getD_eq_getElem _ _ (by simpa using hi), List.getD_eq_getElem _ _ hi]
    simp

lemma getD_addInit_lt (amt : ℕ) : ∀ (l : List ℕ) (i : ℕ), i + 1 < l.length →
    (addInit amt l).getD i 0 = l.getD i 0 + amt
  | [], i, h => by simp at h
  | [x], i, h => by simp at h
  | x :: y :: xs, 0, h => by simp [addInit]
  | x :: y :: xs, i + 1, h => by
    have := getD_addInit_lt amt (y :: xs) i (by simpa using h)
    simpa [addInit] using this

lemma getD_addInit_last (amt : ℕ) : ∀ (l : List ℕ) (i : ℕ), i + 1 = l.length →
    (addInit amt l).getD i 0 = l.getD i 0
  | [], i, h => by simp at h
  | [x], i, h => by
    have : i = 0 := by simpa using h
    subst this; simp [addInit]
  | x :: y :: xs, 0, h => by simp at h
  | x :: y :: xs, i + 1, h => by
    have := getD_addInit_last amt (y :: xs) i (by simpa using h)
    simpa [addInit] using this

lemma length_inputSizes (cfg : Config) (h : 1 ≤ cfg.layers) :
    (inputSizes cfg).length = cfg.layers := by
  unfold inputSizes
  split <;> split <;>
    simp [length_addInit, length_addTail] <;> omega

lemma getD_base (cfg : Config) (i : ℕ) (hi : i < cfg.layers) :
    (cfg.input_size :: List.replicate (cfg.layers - 1) cfg.hidden_size).getD i 0 =
      if i = 0 then cfg.input_size else cfg.hidden_size := by
  cases i with
  | zero => simp
  | succ j =>
    have hj : j < cfg.layers - 1 := by omega
    simp only [List.getD_cons_succ, if_neg (Nat.succ_ne_zero j)]
    rw [List.getD_eq_getElem _ _ (by simpa using hj)]
    exact List.getElem_replicate ..

/-- C4 (counterexample): with `layers = 2` and `use_previous_higher = true`,
layer 0's effective input width is `input_size + hidden_size = 7`, not
`input_size = 3`, contradicting "for layer 0 it is always input_size". -/
theorem inputSizes_layer0_not_input_size :
    ¬ ((inputSizes ⟨3, 4, 2, false, true⟩).getD 0 0 = 3) := by decide

/-- C4 (amended): at construction, the effective input width of layer `i` is
`input_size` for `i = 0` and `hidden_size` (plus `input_size` when
`every_layer_input`) for `i > 0`, plus `hidden_size` more whenever
`use_previous_higher` is set and layer `i` is not the topmost layer —
including `i = 0`. -/
theorem inputSizes_widths (cfg : Config) (i : ℕ) (hi : i < cfg.layers) :
    (inputSizes cfg).getD i 0 =
      (if i = 0 then cfg.input_size else
        cfg.hidden_size + (if cfg.every_layer_input then cfg.input_size else 0))
      + (if cfg.use_previous_higher ∧ i + 1 < cfg.layers then cfg.hidden_size else 0) := by
  have hbaseLen : (cfg.input_size :: List.replicate (cfg.layers - 1) cfg.hidden_size).length
      = cfg.layers := by simp; omega
  have hbase := getD_base cfg i hi
  simp only [inputSizes]
  cases heli : cfg.every_layer_input <;> cases huph : cfg.use_previous_higher
  · -- both false
    rw [if_neg Bool.false_ne_true, if_neg Bool.false_ne_true, hbase]
    simp
  · -- every_layer_input = false, use_previous_higher = true
    rw [if_neg Bool.false_ne_true, if_pos rfl]
    by_cases htop : i + 1 < cfg.layers
    · rw [getD_addInit_lt _ _ _ (by omega), hbase]
      simp [htop]
    · rw [getD_addInit_last _ _ _ (by omega), hbase]
      simp [htop]
  · -- every_layer_input = true, use_previous_higher = false
    rw [if_pos rfl, if_neg Bool.false_ne_true]
    cases i with
    | zero =>
      rw [getD_addTail_zero _ _ (by omega), hbase]
      simp
    | succ j =>
      rw [getD_addTail_succ _ _ _ (by omega), hbase]
      simp [Nat.add_comm]
  · -- every_layer_input = true, use_previous_higher = true
    rw [if_pos rfl, if_pos rfl]
    by_cases htop : i + 1 < cfg.layers
    · rw [getD_addInit_lt _ _ _ (by rw [length_addTail]; omega)]
      cases i with
      | zero =>
        rw [getD_addTail_zero _ _ (by omega), hbase]
        simp [htop]
      | succ j =>
        rw [getD_addTail_succ _ _ _ (by omega), hbase]
        simp [htop]
    · rw [getD_addInit_last _ _ _ (by rw [length_addTail]; omega)]
      cases i with
      | zero =>
        rw [getD_addTail_zero _ _ (by omega), hbase]
        simp [htop]
      | succ j =>
        rw [getD_addTail_succ _ _ _ (by omega), hbase]
        simp [htop]

/-- Witness for `inputSizes_widths` at the configuration of the counterexample. -/
theorem inputSizes_widths_witness :
    (0 < (⟨3, 4, 2, false, true⟩ : Config).layers) ∧
      (inputSizes ⟨3, 4, 2, false, true⟩).getD 0 0 =
        (if 0 = 0 then (3 : ℕ) else 4 + (if false then 3 else 0))
        + (if (true : Bool) = true ∧ 0 + 1 < 2 then 4 else 0) :=
  ⟨by decide, inputSizes_widths ⟨3, 4, 2, false, true⟩ 0 (by decide)⟩

section ListLemmas

variable {α β γ δ : Type _}

lemma getD_zipWith (f : α → β → γ) (d1 : α) (d2 : β) (d3 : γ) :
    ∀ (l1 : List α) (l2 : List β) (i : ℕ), i < l1.length → i < l2.length →
      (List.zipWith f l1 l2).getD i d3 = f (l1.getD i d1) (l2.getD i d2)
  | [], _, i, h1, _ => by simp at h1
  | _ :: _, [], i, _, h2 => by simp at h2
  | a :: as, b :: bs, 0, _, _ => by simp
  | a :: as, b :: bs, i + 1, h1, h2 => by
    simpa using getD_zipWith f d1 d2 d3 as bs i (by simpa using h1) (by simpa using h2)

lemma getD_map (f : α → β) (d1 : α) (d2 : β) :
    ∀ (l : List α) (i : ℕ), i < l.length → (l.map f).getD i d2 = f (l.getD i d1)
  | [], i, h => by simp at h
  | a :: as, 0, _ => by simp
  | a :: as, i + 1, h => by
    simpa using getD_map f d1 d2 as i (by simpa using h)

lemma getD_replicate' (a d : α) : ∀ (n i : ℕ), i < n → (List.replicate n a).getD i d = a
  | 0, i, h => by simp at h
  | n + 1, 0, _ => by simp
  | n + 1, i + 1, h => by
    rw [List.replicate_succ, List.getD_cons_succ]
    exact getD_replicate' a d n i (by omega)

lemma length_zipWith3 (f : α → β → γ → δ) :
    ∀ (l1 : List α) (l2 : List β) (l3 : List γ),
      (zipWith3 f l1 l2 l3).length = min l1.length (min l2.length l3.length)
  | [], l2, l3 => by simp [zipWith3]
  | a :: as, [], l3 => by simp [zipWith3]
  | a :: as, b :: bs, [] => by simp [zipWith3]
  | a :: as, b :: bs, c :: cs => by
    have := length_zipWith3 f as bs cs
    simp [zipWith3, this, Nat.succ_min_succ]

lemma mem_zipWith3 (f : α → β → γ → δ) :
    ∀ (l1 : List α) (l2 : List β) (l3 : List γ) (d : δ), d ∈ zipWith3 f l1 l2 l3 →
      ∃ a ∈ l1, ∃ b ∈ l2, ∃ c ∈ l3, d = f a b c
  | [], _, _, d, h => by simp [zipWith3] at h
  | _ :: _, [], _, d, h => by simp [zipWith3] at h
  | _ :: _, _ :: _, [], d, h => by simp [zipWith3] at h
  | a :: as, b :: bs, c :: cs, d, h => by
    rcases (by simpa [zipWith3] using h : d = f a b c ∨ d ∈ zipWith3 f as bs cs) with h | h
    · exact ⟨a, by simp, b, by simp, c, by simp, h⟩
    · obtain ⟨a', ha, b', hb, c', hc, hd⟩ := mem_zipWith3 f as bs cs d h
      exact ⟨a', by simp [ha], b', by simp [hb], c', by simp [hc], hd⟩

lemma getD_zipWith3 (f : α → β → γ → δ) (d1 : α) (d2 : β) (d3 : γ) (d4 : δ) :
    ∀ (l1 : List α) (l2 : List β) (l3 : List γ) (i : ℕ),
      i < l1.length → i < l2.length → i < l3.length →
      (zipWith3 f l1 l2 l3).getD i d4 = f (l1.getD i d1) (l2.getD i d2) (l3.getD i d3)
  | [], _, _, i, h1, _, _ => by simp at h1
  | _ :: _, [], _, i, _, h2, _ => by simp at h2
  | _ :: _, _ :: _, [], i, _, _, h3 => by simp at h3
  | a :: as, b :: bs, c :: cs, 0, _, _, _ => by simp [zipWith3]
  | a :: as, b :: bs, c :: cs, i + 1, h1, h2, h3 => by
    simpa [zipWith3] using getD_zipWith3 f d1 d2 d3 d4 as bs cs i
      (by simpa using h1) (by simpa using h2) (by simpa using h3)

lemma getD_range_map (g : ℕ → α) (d : α) (n b : ℕ) (hb : b < n) :
    (((List.range n).map g).getD b d) = g b := by
  rw [getD_map g 0 d _ _ (by simpa using hb), List.getD_eq_getElem _ _ (by simpa using hb)]
  simp

end ListLemmas

lemma length_vAdd (a b : Vec) : (vAdd a b).length = min a.length b.length := by
  simp [vAdd]

lemma length_vMul (a b : Vec) : (vMul a b).length = min a.length b.length := by
  simp [vMul]

lemma length_matVec (m : Mat) (v : Vec) : (matVec m v).length = m.length := by
  simp [matVec]

lemma lstmCellRow_len (sg th : ℚ → ℚ) (hs : ℕ) (p : LSTMCellParams) (x h c : Vec)
    (hp : WFP hs p) (hc : c.length = hs) :
    (lstmCellRow sg th hs p x h c).1.length = hs ∧
      (lstmCellRow sg th hs p x h c).2.length = hs := by
  obtain ⟨h1, h2, h3, h4⟩ := hp
  constructor <;>
    · simp only [lstmCellRow, length_vMul, length_vAdd, length_matVec, List.length_map,
        List.length_take, List.length_drop, h1, h2, h3, h4, hc]
      omega

lemma lstmCellB_row (sg th : ℚ → ℚ) (hs : ℕ) (p : LSTMCellParams) (x : Mat)
    (hc : Option (Mat × Mat)) (n b : ℕ) (hx : x.length = n) (hb : b < n)
    (hhc : ∀ m1 m2, hc = some (m1, m2) → m1.length = n ∧ m2.length = n) :
    (lstmCellB sg th hs p x hc).1.getD b [] =
        (lstmCellRow sg th hs p (x.getD b []) (rowOfState hs b hc).1 (rowOfState hs b hc).2).1 ∧
      (lstmCellB sg th hs p x hc).2.getD b [] =
        (lstmCellRow sg th hs p (x.getD b []) (rowOfState hs b hc).1 (rowOfState hs b hc).2).2 := by
  cases hc with
  | none =>
    have hrows : (zipWith3 (fun xr hr cr => lstmCellRow sg th hs p xr hr cr) x
        (zerosM x.length hs) (zerosM x.length hs)).length = n := by
      simp [length_zipWith3, zerosM, hx]
    have hmid : (zipWith3 (fun xr hr cr => lstmCellRow sg th hs p xr hr cr) x
        (zerosM x.length hs) (zerosM x.length hs)).getD b ([], [])
        = lstmCellRow sg th hs p (x.getD b []) (zeros hs) (zeros hs) := by
      rw [getD_zipWith3 _ [] [] [] _ _ _ _ b (by omega) (by simp [zerosM]; omega)
          (by simp [zerosM]; omega)]
      simp only [zerosM]
      rw [getD_replicate' _ _ _ _ (by omega)]
    constructor
    · simp only [lstmCellB, Option.getD_none, rowOfState]
      rw [getD_map Prod.fst ([], []) [] _ b (by rw [hrows]; exact hb), hmid]
    · simp only [lstmCellB, Option.getD_none, rowOfState]
      rw [getD_map Prod.snd ([], []) [] _ b (by rw [hrows]; exact hb), hmid]
  | some hcp =>
    obtain ⟨hm1, hm2⟩ := hhc hcp.1 hcp.2 (by simp)
    have hrows : (zipWith3 (fun xr hr cr => lstmCellRow sg th hs p xr hr cr) x
        hcp.1 hcp.2).length = n := by
      simp [length_zipWith3, hx, hm1, hm2]
    have hmid : (zipWith3 (fun xr hr cr => lstmCellRow sg th hs p xr hr cr) x
        hcp.1 hcp.2).getD b ([], [])
        = lstmCellRow sg th hs p (x.getD b []) (hcp.1.getD b []) (hcp.2.getD b []) := by
      rw [getD_zipWith3 _ [] [] [] _ _ _ _ b (by omega) (by omega) (by omega)]
    constructor
    · simp only [lstmCellB, Option.getD_some, rowOfState]
      rw [getD_map Prod.fst ([], []) [] _ b (by rw [hrows]; exact hb), hmid]
    · simp only [lstmCellB, Option.getD_some, rowOfState]
      rw [getD_map Prod.snd ([], []) [] _ b (by rw [hrows]; exact hb), hmid]

lemma lstmCellB_shape (sg th : ℚ → ℚ) (hs : ℕ) (p : LSTMCellParams) (x : Mat)
    (hc : Option (Mat × Mat)) (n : ℕ) (hp : WFP hs p) (hx : x.length = n)
    (hhc : ∀ m1 m2, hc = some (m1, m2) →
      m1.length = n ∧ m2.length = n ∧ ∀ r ∈ m2, r.length = hs) :
    WFmat n hs (lstmCellB sg th hs p x hc).1 ∧ WFmat n hs (lstmCellB sg th hs p x hc).2 := by
  cases hc with
  | none =>
    have hlen : (zipWith3 (fun xr hr cr => lstmCellRow sg th hs p xr hr cr) x
        (zerosM x.length hs) (zerosM x.length hs)).length = n := by
      simp [length_zipWith3, zerosM, hx]
    refine ⟨⟨by simp [lstmCellB, hlen], ?_⟩, ⟨by simp [lstmCellB, hlen], ?_⟩⟩ <;>
      · intro r hr
        simp only [lstmCellB, Option.getD_none, List.mem_map] at hr
        obtain ⟨pr, hpr, rfl⟩ := hr
        obtain ⟨a, _, b, _, c, hcmem, rfl⟩ := mem_zipWith3 _ _ _ _ _ hpr
        have hclen : c.length = hs := by
          have hcz : c = zeros hs := List.eq_of_mem_replicate
            (show c ∈ List.replicate x.length (zeros hs) by simpa [zerosM] using hcmem)
          simp [hcz, zeros]
        first
        | exact (lstmCellRow_len sg th hs p a b c hp hclen).1
        | exact (lstmCellRow_len sg th hs p a b c hp hclen).2
  | some hcp =>
    obtain ⟨hm1, hm2, hm2r⟩ := hhc hcp.1 hcp.2 (by simp)
    have hlen : (zipWith3 (fun xr hr cr => lstmCellRow sg th hs p xr hr cr) x
        hcp.1 hcp.2).length = n := by
      simp [length_zipWith3, hx, hm1, hm2]
    refine ⟨⟨by simp [lstmCellB, hlen], ?_⟩, ⟨by simp [lstmCellB, hlen], ?_⟩⟩ <;>
      · intro r hr
        simp only [lstmCellB, Option.getD_some, List.mem_map] at hr
        obtain ⟨pr, hpr, rfl⟩ := hr
        obtain ⟨a, _, b, _, c, hcmem, rfl⟩ := mem_zipWith3 _ _ _ _ _ hpr
        have hclen : c.length = hs := hm2r c hcmem
        first
        | exact (lstmCellRow_len sg th hs p a b c hp hclen).1
        | exact (lstmCellRow_len sg th hs p a b c hp hclen).2

lemma mem_zipWith {α β γ : Type _} (f : α → β → γ) :
    ∀ (l1 : List α) (l2 : List β) (c : γ), c ∈ List.zipWith f l1 l2 →
      ∃ a ∈ l1, ∃ b ∈ l2, c = f a b
  | [], _, c, h => by simp at h
  | _ :: _, [], c, h => by simp at h
  | a :: as, b :: bs, c, h => by
    rcases (by simpa using h : c = f a b ∨ c ∈ List.zipWith f as bs) with h | h
    · exact ⟨a, by simp, b, by simp, h⟩
    · obtain ⟨a', ha, b', hb, hc⟩ := mem_zipWith f as bs c h
      exact ⟨a', by simp [ha], b', by simp [hb], hc⟩

lemma WFhx_hxlLen {n hs : ℕ} {hxl : List (Option (Mat × Mat))} (h : WFhx n hs hxl) :
    hxlLen n hxl :=
  fun j m1 m2 hj => ⟨(h j m1 m2 hj).1.1, (h j m1 m2 hj).2.1⟩

lemma length_rowAppend (a b : Mat) : (rowAppend a b).length = min a.length b.length := by
  simp [rowAppend]

lemma length_zerosM (b n : ℕ) : (zerosM b n).length = b := by
  simp [zerosM]

lemma length_assembleInput (cfg : Config) (input_ : Mat) (hxl : List (Option (Mat × Mat)))
    (layer : ℕ) (recent : Mat) (n : ℕ) (hr : recent.length = n) (hin : input_.length = n)
    (hhx : hxlLen n hxl) :
    (assembleInput cfg input_ hxl layer recent).length = n := by
  simp only [assembleInput]
  have hr1 : (if 0 < layer ∧ cfg.every_layer_input then rowAppend recent input_
      else recent).length = n := by
    split
    · simp [length_rowAppend, hr, hin]
    · exact hr
  split
  · cases hget : hxl.getD (layer + 1) none with
    | none =>
      simp only [hget, length_rowAppend, length_zerosM]
      omega
    | some hc =>
      have := (hhx (layer + 1) hc.1 hc.2 (by rw [hget])).1
      simp only [hget, length_rowAppend]
      omega
  · exact hr1

lemma lstmCellB_len (sg th : ℚ → ℚ) (hs : ℕ) (p : LSTMCellParams) (x : Mat)
    (hc : Option (Mat × Mat)) (n : ℕ) (hx : x.length = n)
    (hhc : ∀ m1 m2, hc = some (m1, m2) → m1.length = n ∧ m2.length = n) :
    (lstmCellB sg th hs p x hc).1.length = n ∧ (lstmCellB sg th hs p x hc).2.length = n := by
  cases hc with
  | none =>
    constructor <;> simp [lstmCellB, length_zipWith3, zerosM, hx]
  | some hcp =>
    obtain ⟨hm1, hm2⟩ := hhc hcp.1 hcp.2 (by simp)
    constructor <;> simp [lstmCellB, length_zipWith3, hx, hm1, hm2]

lemma length_cellLoop (sg th : ℚ → ℚ) (cfg : Config) (cells : List LSTMCellParams)
    (input_ : Mat) (hxl : List (Option (Mat × Mat))) :
    ∀ (rem layer : ℕ) (recent : Mat),
      (cellLoop sg th cfg cells input_ hxl rem layer recent).length = rem
  | 0, _, _ => by simp [cellLoop]
  | rem + 1, layer, recent => by
    simpa [cellLoop] using length_cellLoop sg th cfg cells input_ hxl rem (layer + 1) _

lemma cellLoop_shape (sg th : ℚ → ℚ) (cfg : Config) (cells : List LSTMCellParams)
    (input_ : Mat) (hxl : List (Option (Mat × Mat))) (n : ℕ)
    (hin : input_.length = n) (hhx : WFhx n cfg.hidden_size hxl)
    (hcells : ∀ p ∈ cells, WFP cfg.hidden_size p) :
    ∀ (rem layer : ℕ) (recent : Mat), recent.length = n → layer + rem ≤ cells.length →
      WFstack n cfg.hidden_size (cellLoop sg th cfg cells input_ hxl rem layer recent)
  | 0, layer, recent => fun _ _ => by
    intro hc hmem
    simp [cellLoop] at hmem
  | rem + 1, layer, recent => fun hr hle => by
    have hlayer : layer < cells.length := by omega
    have hasm : (assembleInput cfg input_ hxl layer recent).length = n :=
      length_assembleInput cfg input_ hxl layer recent n hr hin (WFhx_hxlLen hhx)
    have hplayer : cells.getD layer ⟨[], [], [], []⟩ ∈ cells := by
      rw [List.getD_eq_getElem _ _ hlayer]
      exact List.getElem_mem hlayer
    have hout := lstmCellB_shape sg th cfg.hidden_size (cells.getD layer ⟨[], [], [], []⟩)
      (assembleInput cfg input_ hxl layer recent) (hxl.getD layer none) n
      (hcells _ hplayer) hasm
      (fun m1 m2 hm => ⟨(hhx layer m1 m2 hm).1.1, (hhx layer m1 m2 hm).2.1,
        (hhx layer m1 m2 hm).2.2⟩)
    intro hc hmem
    simp only [cellLoop, List.mem_cons] at hmem
    rcases hmem with rfl | hmem
    · exact hout
    · exact cellLoop_shape sg th cfg cells input_ hxl n hin hhx hcells rem (layer + 1) _
        hout.1.1 (by omega) hc hmem

lemma getD_mem {α : Type _} (l : List α) (i : ℕ) (d : α) (h : i < l.length) :
    l.getD i d ∈ l := by
  rw [List.getD_eq_getElem _ _ h]
  exact List.getElem_mem h

lemma headD_mem {α : Type _} (l : List α) (d : α) (h : 0 < l.length) : l.headD d ∈ l := by
  cases l with
  | nil => simp at h
  | cons a as => simp

lemma getD_of_le {α : Type _} : ∀ (l : List α) (i : ℕ) (d : α), l.length ≤ i → l.getD i d = d
  | [], i, d, _ => by simp
  | a :: as, i + 1, d, h => by
    rw [List.getD_cons_succ]
    exact getD_of_le as i d (by simpa using h)

lemma getD_replicate_none (k j : ℕ) :
    (List.replicate k (none : Option (Mat × Mat))).getD j none = none := by
  by_cases hj : j < k
  · exact getD_replicate' _ _ _ _ hj
  · exact getD_of_le _ _ _ (by simpa using Nat.le_of_not_lt hj)

lemma getD_map_some_mem : ∀ (st : List (Mat × Mat)) (j : ℕ) (m : Mat × Mat),
    (st.map some).getD j none = some m → m ∈ st
  | [], j, m, h => by simp [getD_of_le] at h
  | a :: as, 0, m, h => by
    simp only [List.map_cons, List.getD_cons_zero, Option.some.injEq] at h
    simp [← h]
  | a :: as, j + 1, m, h => by
    simp only [List.map_cons, List.getD_cons_succ] at h
    exact List.mem_cons_of_mem a (getD_map_some_mem as j m h)

lemma cellForward_length (sg th : ℚ → ℚ) (cfg : Config) (cells : List LSTMCellParams)
    (input_ : Mat) (hx : Option (List (Mat × Mat))) :
    (cellForward sg th cfg cells input_ hx).length = cfg.layers := by
  cases hx <;> simp only [cellForward] <;> exact length_cellLoop ..

lemma cellForward_shape (sg th : ℚ → ℚ) (cfg : Config) (cells : List LSTMCellParams)
    (input_ : Mat) (hx : Option (List (Mat × Mat))) (n : ℕ) (hin : input_.length = n)
    (hcells : ∀ p ∈ cells, WFP cfg.hidden_size p) (hclen : cells.length = cfg.layers)
    (hhx : ∀ st, hx = some st → WFstack n cfg.hidden_size st) :
    WFstack n cfg.hidden_size (cellForward sg th cfg cells input_ hx) := by
  cases hx with
  | none =>
    simp only [cellForward]
    exact cellLoop_shape sg th cfg cells input_ _ n hin
      (fun j m1 m2 hj => by rw [getD_replicate_none] at hj; cases hj)
      hcells cfg.layers 0 input_ hin (by omega)
  | some st =>
    simp only [cellForward]
    exact cellLoop_shape sg th cfg cells input_ _ n hin
      (fun j m1 m2 hj => hhx st rfl (m1, m2) (getD_map_some_mem st j (m1, m2) hj))
      hcells cfg.layers 0 input_ hin (by omega)

lemma snapshot_shape (stack : List (Mat × Mat)) (n hs : ℕ)
    (hwf : WFstack n hs stack) (hne : stack ≠ []) :
    (snapshot stack).length = n ∧ ∀ row ∈ snapshot stack,
      row.length = stack.length ∧ ∀ v ∈ row, v.length = hs := by
  cases stack with
  | nil => exact absurd rfl hne
  | cons hc rest =>
    have hn : hc.1.length = n := (hwf hc (by simp)).1.1
    simp only [snapshot]
    refine ⟨by simp [hn], ?_⟩
    intro row hrow
    simp only [List.mem_map, List.mem_range] at hrow
    obtain ⟨b, hb, rfl⟩ := hrow
    refine ⟨by simp, ?_⟩
    intro v hv
    simp only [List.mem_map] at hv
    obtain ⟨p, hp, rfl⟩ := hv
    have hwfp := hwf p hp
    have hblt : b < p.1.length := by rw [hwfp.1.1, ← hn]; exact hb
    exact hwfp.1.2 _ (getD_mem _ _ _ hblt)

lemma scaleRows_shape (rt : Vec) (m : Mat) (n k : ℕ) (hrt : rt.length = n)
    (hm : WFmat n k m) : WFmat n k (scaleRows rt m) := by
  refine ⟨by simp [scaleRows, List.length_zipWith, hrt, hm.1], ?_⟩
  intro r hr
  obtain ⟨q, _, row, hrow, rfl⟩ := mem_zipWith _ _ _ _ hr
  simp [hm.2 row hrow]

lemma resetStep_shape (stack : List (Mat × Mat)) (rt : Vec) (n hs : ℕ)
    (hrt : rt.length = n) (hwf : WFstack n hs stack) :
    WFstack n hs (resetStep stack rt) ∧ (resetStep stack rt).length = stack.length := by
  simp only [resetStep]
  split
  · refine ⟨?_, by simp⟩
    intro hc hmem
    simp only [List.mem_map] at hmem
    obtain ⟨p, hp, rfl⟩ := hmem
    exact ⟨scaleRows_shape rt p.1 n hs hrt (hwf p hp).1,
      scaleRows_shape rt p.2 n hs hrt (hwf p hp).2⟩
  · exact ⟨hwf, rfl⟩

lemma run_lengths (sg th : ℚ → ℚ) (cfg : Config) (cells : List LSTMCellParams) :
    ∀ (xs : List Mat) (rs : Option (List Vec)) (hx : Option (List (Mat × Mat))),
      (run sg th cfg cells xs rs hx).1.length = xs.length ∧
        (run sg th cfg cells xs rs hx).2.1.length = xs.length ∧
        (run sg th cfg cells xs rs hx).2.2.length = xs.length
  | [], _, _ => by simp [run]
  | x :: xs, rs, hx => by
    simpa [run] using run_lengths sg th cfg cells xs (rs.map List.tail) _

lemma run_shape (sg th : ℚ → ℚ) (cfg : Config) (cells : List LSTMCellParams) (n : ℕ)
    (hcells : ∀ p ∈ cells, WFP cfg.hidden_size p) (hclen : cells.length = cfg.layers)
    (hL1 : 1 ≤ cfg.layers) :
    ∀ (xs : List Mat) (rs : Option (List Vec)) (hx : Option (List (Mat × Mat))),
      (∀ x ∈ xs, x.length = n) →
      (∀ l, rs = some l → l.length = xs.length ∧ ∀ v ∈ l, v.length = n) →
      (∀ st, hx = some st → WFstack n cfg.hidden_size st) →
      (∀ o ∈ (run sg th cfg cells xs rs hx).1, o.length = n ∧
        ∀ row ∈ o, row.length = cfg.layers ∧ ∀ v ∈ row, v.length = cfg.hidden_size) ∧
      (∀ st ∈ (run sg th cfg cells xs rs hx).2.1,
        st.length = cfg.layers ∧ WFstack n cfg.hidden_size st) ∧
      (∀ st ∈ (run sg th cfg cells xs rs hx).2.2,
        st.length = cfg.layers ∧ WFstack n cfg.hidden_size st)
  | [], rs, hx => fun _ _ _ => by
    refine ⟨?_, ?_, ?_⟩ <;> (intro o ho; simp [run] at ho)
  | x :: xs, rs, hx => fun hxs hrs hhx => by
    have hxn : x.length = n := hxs x (by simp)
    have hstackWF : WFstack n cfg.hidden_size (cellForward sg th cfg cells x hx) :=
      cellForward_shape sg th cfg cells x hx n hxn hcells hclen hhx
    have hstackLen : (cellForward sg th cfg cells x hx).length = cfg.layers :=
      cellForward_length sg th cfg cells x hx
    have hstackNe : cellForward sg th cfg cells x hx ≠ [] := by
      intro hcontra
      rw [hcontra] at hstackLen
      simp at hstackLen
      omega
    have hsnap := snapshot_shape (cellForward sg th cfg cells x hx) n cfg.hidden_size
      hstackWF hstackNe
    have houtShape : (snapshot (cellForward sg th cfg cells x hx)).length = n ∧
        ∀ row ∈ snapshot (cellForward sg th cfg cells x hx),
          row.length = cfg.layers ∧ ∀ v ∈ row, v.length = cfg.hidden_size := by
      refine ⟨hsnap.1, ?_⟩
      intro row hrow
      have := hsnap.2 row hrow
      rw [hstackLen] at this
      exact this
    cases rs with
    | none =>
      have hrec := run_shape sg th cfg cells n hcells hclen hL1 xs none
        (some (cellForward sg th cfg cells x hx))
        (fun x' hx' => hxs x' (by simp [hx']))
        (fun l' hl' => by cases hl')
        (fun st' hst' => by rw [← Option.some_inj.mp hst']; exact hstackWF)
      refine ⟨?_, ?_, ?_⟩
      · intro o ho
        simp only [run, List.mem_cons] at ho
        rcases ho with rfl | ho
        · exact houtShape
        · exact hrec.1 o (by simpa using ho)
      · intro st hst
        simp only [run, List.mem_cons] at hst
        rcases hst with rfl | hst
        · exact ⟨hstackLen, hstackWF⟩
        · exact hrec.2.1 st (by simpa using hst)
      · intro st hst
        simp only [run, List.mem_cons] at hst
        rcases hst with rfl | hst
        · exact ⟨hstackLen, hstackWF⟩
        · exact hrec.2.2 st (by simpa using hst)
    | some l =>
      have hl := hrs l rfl
      have hhead : (l.headD []).length = n :=
        hl.2 _ (headD_mem l [] (by rw [hl.1]; simp))
      have hpost := resetStep_shape (cellForward sg th cfg cells x hx) (l.headD []) n
        cfg.hidden_size hhead hstackWF
      have hpostLen : (resetStep (cellForward sg th cfg cells x hx) (l.headD [])).length
          = cfg.layers := by rw [hpost.2, hstackLen]
      have hrec := run_shape sg th cfg cells n hcells hclen hL1 xs (some l.tail)
        (some (resetStep (cellForward sg th cfg cells x hx) (l.headD [])))
        (fun x' hx' => hxs x' (by simp [hx']))
        (fun l' hl' => by
          have hl'' : l.tail = l' := Option.some_inj.mp hl'
          subst hl''
          refine ⟨by simp [hl.1], ?_⟩
          intro v hv
          exact hl.2 v (List.mem_of_mem_tail hv))
        (fun st' hst' => by rw [← Option.some_inj.mp hst']; exact hpost.1)
      refine ⟨?_, ?_, ?_⟩
      · intro o ho
        simp only [run, List.mem_cons] at ho
        rcases ho with rfl | ho
        · exact houtShape
        · exact hrec.1 o (by simpa using ho)
      · intro st hst
        simp only [run, List.mem_cons] at hst
        rcases hst with rfl | hst
        · exact ⟨hstackLen, hstackWF⟩
        · exact hrec.2.1 st (by simpa using hst)
      · intro st hst
        simp only [run, List.mem_cons] at hst
        rcases hst with rfl | hst
        · exact ⟨hpostLen, hpost.1⟩
        · exact hrec.2.2 st (by simpa using hst)

/-- C3: for every valid configuration (`layers ≥ 1`, well-formed per-layer
parameters) and every input sequence of `length ≥ 1` timestep slices of
`batch` rows (with a reset signal of matching shape when supplied),
`MultilayerLSTM.forward` returns a value of shape exactly
`[batch, length, layers, hidden_size]`. -/
theorem lstmForward_shape (sg th : ℚ → ℚ) (cfg : Config) (cells : List LSTMCellParams)
    (xs : List Mat) (rs : Option (List Vec)) (n : ℕ)
    (hL1 : 1 ≤ cfg.layers) (hcells : ∀ p ∈ cells, WFP cfg.hidden_size p)
    (hclen : cells.length = cfg.layers)
    (hxs : ∀ x ∈ xs, x.length = n) (hlen1 : 1 ≤ xs.length)
    (hrs : ∀ l, rs = some l → l.length = xs.length ∧ ∀ v ∈ l, v.length = n) :
    (lstmForward sg th cfg cells xs rs).length = n ∧
      ∀ row ∈ lstmForward sg th cfg cells xs rs, row.length = xs.length ∧
        ∀ ot ∈ row, ot.length = cfg.layers ∧ ∀ v ∈ ot, v.length = cfg.hidden_size := by
  have hrun := run_shape sg th cfg cells n hcells hclen hL1 xs rs none hxs hrs
    (fun st h => by cases h)
  have hlens := run_lengths sg th cfg cells xs rs none
  simp only [lstmForward]
  cases houts : (run sg th cfg cells xs rs none).1 with
  | nil =>
    exfalso
    rw [houts] at hlens
    simp at hlens
    omega
  | cons o rest =>
    have hlout : (o :: rest).length = xs.length := by rw [← houts]; exact hlens.1
    have hoShape := hrun.1 o (by rw [houts]; simp)
    simp only [catTime]
    constructor
    · simp [hoShape.1]
    · intro row hrow
      simp only [List.mem_map, List.mem_range] at hrow
      obtain ⟨b, hb, rfl⟩ := hrow
      constructor
      · simpa using hlout
      · intro ot hot
        simp only [List.mem_map] at hot
        obtain ⟨ot0, hot0, rfl⟩ := hot
        have hsh := hrun.1 ot0 (by rw [houts]; exact hot0)
        have hb' : b < ot0.length := by rw [hsh.1, ← hoShape.1]; exact hb
        exact hsh.2 _ (getD_mem ot0 b [] hb')

/-- Witness for `lstmForward_shape` at a concrete one-layer configuration. -/
theorem lstmForward_shape_witness :
    (1 ≤ cfgOne.layers ∧ (∀ p ∈ [cellP], WFP cfgOne.hidden_size p) ∧
        (∀ x ∈ [[[(1 : ℚ)]]], x.length = 1)) ∧
      ((lstmForward id id cfgOne [cellP] [[[(1 : ℚ)]]] none).length = 1 ∧
        ∀ row ∈ lstmForward id id cfgOne [cellP] [[[(1 : ℚ)]]] none,
          row.length = [[[(1 : ℚ)]]].length ∧
          ∀ ot ∈ row, ot.length = cfgOne.layers ∧ ∀ v ∈ ot, v.length = cfgOne.hidden_size) :=
  ⟨⟨by decide, by decide, by decide⟩,
    lstmForward_shape id id cfgOne [cellP] [[[(1 : ℚ)]]] none 1 (by decide) (by decide)
      (by decide) (by decide) (by decide) (fun l h => nomatch h)⟩

/-- C9: `MultilayerLSTMCell.forward`, on an input of `batch` rows and a carried
stack that is either absent or well-formed, returns a stack of exactly
`layers` `(hidden, cell)` pairs (in construction order), each of shape
`[batch, hidden_size]`; the length depends only on the construction-time
`layers`, never on the timestep. -/
theorem cellForward_stack_invariant (sg th : ℚ → ℚ) (cfg : Config)
    (cells : List LSTMCellParams) (input_ : Mat) (hx : Option (List (Mat × Mat))) (n : ℕ)
    (hin : input_.length = n) (hcells : ∀ p ∈ cells, WFP cfg.hidden_size p)
    (hclen : cells.length = cfg.layers)
    (hhx : ∀ st, hx = some st → WFstack n cfg.hidden_size st) :
    (cellForward sg th cfg cells input_ hx).length = cfg.layers ∧
      ∀ hc ∈ cellForward sg th cfg cells input_ hx,
        hc.1.length = n ∧ (∀ r ∈ hc.1, r.length = cfg.hidden_size) ∧
          hc.2.length = n ∧ (∀ r ∈ hc.2, r.length = cfg.hidden_size) := by
  refine ⟨cellForward_length sg th cfg cells input_ hx, ?_⟩
  intro hc hmem
  have := cellForward_shape sg th cfg cells input_ hx n hin hcells hclen hhx hc hmem
  exact ⟨this.1.1, this.1.2, this.2.1, this.2.2⟩

/-- Witness for `cellForward_stack_invariant` at a concrete one-layer cell. -/
theorem cellForward_stack_invariant_witness :
    ([[(1 : ℚ)]].length = 1 ∧ (∀ p ∈ [cellP], WFP cfgOne.hidden_size p)) ∧
      ((cellForward id id cfgOne [cellP] [[(1 : ℚ)]] none).length = cfgOne.layers ∧
        ∀ hc ∈ cellForward id id cfgOne [cellP] [[(1 : ℚ)]] none,
          hc.1.length = 1 ∧ (∀ r ∈ hc.1, r.length = cfgOne.hidden_size) ∧
            hc.2.length = 1 ∧ (∀ r ∈ hc.2, r.length = cfgOne.hidden_size)) :=
  ⟨⟨by decide, by decide⟩,
    cellForward_stack_invariant id id cfgOne [cellP] [[(1 : ℚ)]] none 1 (by decide)
      (by decide) (by decide) (fun st h => nomatch h)⟩

/-- C7: `MultilayerLSTM.forward` is a pure function of its configuration,
parameters, input sequence and reset signal: two runs on identical inputs and
identical reset signals (and the same absent initial state) produce identical
outputs. -/
theorem lstmForward_deterministic (sg th : ℚ → ℚ) (cfg : Config)
    (cells : List LSTMCellParams) (xs1 xs2 : List Mat) (rs1 rs2 : Option (List Vec))
    (hxeq : xs1 = xs2) (hreq : rs1 = rs2) :
    lstmForward sg th cfg cells xs1 rs1 = lstmForward sg th cfg cells xs2 rs2 := by
  subst hxeq
  subst hreq
  rfl

/-- Witness for `lstmForward_deterministic` at a concrete input. -/
theorem lstmForward_deterministic_witness :
    ([[[(1 : ℚ)]], [[(0 : ℚ)]]] = [[[(1 : ℚ)]], [[(0 : ℚ)]]] ∧
        (some [[(1 : ℚ)], [0]] : Option (List Vec)) = some [[(1 : ℚ)], [0]]) ∧
      lstmForward id id cfgOne [cellP] [[[(1 : ℚ)]], [[(0 : ℚ)]]] (some [[(1 : ℚ)], [0]]) =
        lstmForward id id cfgOne [cellP] [[[(1 : ℚ)]], [[(0 : ℚ)]]] (some [[(1 : ℚ)], [0]]) :=
  ⟨⟨rfl, rfl⟩, lstmForward_deterministic id id cfgOne [cellP] _ _ _ _ rfl rfl⟩

lemma cellLoopS_spec (sg th : ℚ → ℚ) (cfg : Config) (cells : List LSTMCellParams)
    (input_ : Mat) : ∀ (rem layer : ℕ) (recent : Mat) (hxl : List (Option (Mat × Mat))),
      (cellLoopS sg th cfg cells input_ rem layer recent hxl).2 = hxl ∧
        (cellLoopS sg th cfg cells input_ rem layer recent hxl).1 =
          cellLoop sg th cfg cells input_ hxl rem layer recent
  | 0, _, _, hxl => by simp [cellLoopS, cellLoop]
  | rem + 1, layer, recent, hxl => by
    have := cellLoopS_spec sg th cfg cells input_ rem (layer + 1)
      (lstmCellB sg th cfg.hidden_size (cells.getD layer ⟨[], [], [], []⟩)
        (assembleInput cfg input_ hxl layer recent) (hxl.getD layer none)).1 hxl
    simp only [cellLoopS, cellLoop]
    exact ⟨this.1, by rw [this.2]⟩

/-- C8: `MultilayerLSTMCell.forward` does not mutate its `hx` argument: in the
state-passing embedding of its loop, a non-absent `hx` of length `layers`
comes out of the call exactly as it went in, while the returned stack is the
newly built list of `(h, c)` pairs. -/
theorem cellForward_no_mutation (sg th : ℚ → ℚ) (cfg : Config)
    (cells : List LSTMCellParams) (input_ : Mat) (st : List (Mat × Mat))
    (hlen : st.length = cfg.layers) :
    (cellForwardS sg th cfg cells input_ (some st)).2 = st.map some ∧
      (cellForwardS sg th cfg cells input_ (some st)).1 =
        cellForward sg th cfg cells input_ (some st) := by
  simp only [cellForwardS, cellForward]
  exact cellLoopS_spec sg th cfg cells input_ cfg.layers 0 input_ (st.map some)

/-- Witness for `cellForward_no_mutation` on a concrete one-layer stack. -/
theorem cellForward_no_mutation_witness :
    ([([[(5 : ℚ)]], [[(7 : ℚ)]])].length = cfgOne.layers) ∧
      ((cellForwardS id id cfgOne [cellP] [[(1 : ℚ)]]
            (some [([[(5 : ℚ)]], [[(7 : ℚ)]])])).2 =
          [([[(5 : ℚ)]], [[(7 : ℚ)]])].map some ∧
        (cellForwardS id id cfgOne [cellP] [[(1 : ℚ)]]
            (some [([[(5 : ℚ)]], [[(7 : ℚ)]])])).1 =
          cellForward id id cfgOne [cellP] [[(1 : ℚ)]]
            (some [([[(5 : ℚ)]], [[(7 : ℚ)]])])) :=
  ⟨by decide,
    cellForward_no_mutation id id cfgOne [cellP] [[(1 : ℚ)]]
      [([[(5 : ℚ)]], [[(7 : ℚ)]])] (by decide)⟩

lemma getD_rowAppend (a b : Mat) (i : ℕ) (h1 : i < a.length) (h2 : i < b.length) :
    (rowAppend a b).getD i [] = a.getD i [] ++ b.getD i [] := by
  simp only [rowAppend]
  exact getD_zipWith _ [] [] [] a b i h1 h2

/-- C5: with `use_previous_higher` set, at the first timestep (absent previous
stack, i.e. `hx = [None] * layers`), for every layer below the topmost the
"previous higher hidden state" component concatenated into that layer's input
is exactly the zero vector of width `hidden_size`, for every batch row. -/
theorem assembleInput_zero_substitution (cfg : Config) (input_ : Mat) (layer : ℕ)
    (recent : Mat) (n b : ℕ) (hr : recent.length = n) (hin : input_.length = n) (hb : b < n)
    (huph : cfg.use_previous_higher = true) (hlt : layer + 1 < cfg.layers) :
    (assembleInput cfg input_ (List.replicate cfg.layers none) layer recent).getD b [] =
      (if 0 < layer ∧ cfg.every_layer_input then recent.getD b [] ++ input_.getD b []
        else recent.getD b []) ++ List.replicate cfg.hidden_size 0 := by
  have hnone : (List.replicate cfg.layers (none : Option (Mat × Mat))).getD (layer + 1) none
      = none := getD_replicate_none ..
  simp only [assembleInput, hnone]
  rw [if_pos ⟨hlt, huph⟩]
  by_cases heli : 0 < layer ∧ cfg.every_layer_input = true
  · rw [if_pos heli, if_pos heli]
    have h1 : (rowAppend recent input_).length = n := by
      simp [length_rowAppend, hr, hin]
    rw [getD_rowAppend _ _ b (by omega) (by rw [length_zerosM]; omega),
      getD_rowAppend _ _ b (by omega) (by omega)]
    simp only [zerosM]
    rw [getD_replicate' _ _ _ _ (by omega)]
    rfl
  · rw [if_neg heli, if_neg heli]
    rw [getD_rowAppend _ _ b (by omega) (by rw [length_zerosM]; omega)]
    simp only [zerosM]
    rw [getD_replicate' _ _ _ _ (by omega)]
    rfl

/-- Witness for `assembleInput_zero_substitution` at a two-layer configuration. -/
theorem assembleInput_zero_substitution_witness :
    ((0 : ℕ) < 1 ∧ (⟨1, 2, 2, false, true⟩ : Config).use_previous_higher = true ∧
        0 + 1 < (⟨1, 2, 2, false, true⟩ : Config).layers) ∧
      (assembleInput ⟨1, 2, 2, false, true⟩ [[(3 : ℚ)]] (List.replicate 2 none) 0
          [[(3 : ℚ)]]).getD 0 [] =
        (if 0 < 0 ∧ (⟨1, 2, 2, false, true⟩ : Config).every_layer_input
          then [[(3 : ℚ)]].getD 0 [] ++ [[(3 : ℚ)]].getD 0 []
          else [[(3 : ℚ)]].getD 0 []) ++ List.replicate 2 0 :=
  ⟨⟨by decide, by decide, by decide⟩,
    assembleInput_zero_substitution ⟨1, 2, 2, false, true⟩ [[(3 : ℚ)]] 0 [[(3 : ℚ)]] 1 0
      (by decide) (by decide) (by decide) (by decide) (by decide)⟩

lemma tail_getD {α : Type _} (l : List α) (i : ℕ) (d : α) :
    l.tail.getD i d = l.getD (i + 1) d := by
  cases l <;> simp

lemma headD_eq_getD_zero {α : Type _} (l : List α) (d : α) : l.headD d = l.getD 0 d := by
  cases l <;> rfl

lemma run_post_eq (sg th : ℚ → ℚ) (cfg : Config) (cells : List LSTMCellParams) :
    ∀ (xs : List Mat) (l : List Vec) (hx : Option (List (Mat × Mat))) (t : ℕ),
      t < xs.length →
      (run sg th cfg cells xs (some l) hx).2.2.getD t [] =
        resetStep ((run sg th cfg cells xs (some l) hx).2.1.getD t []) (l.getD t [])
  | [], l, hx, t, ht => by simp at ht
  | x :: xs, l, hx, 0, _ => by
    simp only [run, List.getD_cons_zero]
    rw [headD_eq_getD_zero]
  | x :: xs, l, hx, t + 1, ht => by
    simp only [run, List.getD_cons_succ, Option.map_some']
    have := run_post_eq sg th cfg cells xs l.tail
      (some (resetStep (cellForward sg th cfg cells x hx) (l.headD []))) t
      (by simpa using ht)
    rw [this, tail_getD]

lemma getD_scaleRows (rt : Vec) (m : Mat) (b n : ℕ) (hrt : rt.length = n)
    (hm : m.length = n) (hb : b < n) :
    (scaleRows rt m).getD b [] = (m.getD b []).map (fun q => q * (1 - rt.getD b 0)) := by
  simp only [scaleRows]
  exact getD_zipWith _ 0 [] [] rt m b (by omega) (by omega)

/-- C10: when a reset signal is supplied, at each timestep `t` the carried
state equals: the newly computed stack with every batch row `b` of every
layer's hidden and cell tensors multiplied elementwise by
`1 - reset[b, t]` — applied to all batch rows, including those at or below
the `1e-6` threshold — whenever at least one batch element exceeds the
threshold; and exactly the newly computed stack, unchanged, when no element
exceeds it. -/
theorem reset_scales_carried_state (sg th : ℚ → ℚ) (cfg : Config)
    (cells : List LSTMCellParams) (xs : List Mat) (l : List Vec) (n t : ℕ)
    (hL1 : 1 ≤ cfg.layers) (hcells : ∀ p ∈ cells, WFP cfg.hidden_size p)
    (hclen : cells.length = cfg.layers) (hxs : ∀ x ∈ xs, x.length = n)
    (hlen : l.length = xs.length) (hvl : ∀ v ∈ l, v.length = n) (ht : t < xs.length) :
    ((l.getD t []).any (fun r => resetEps < r) = true →
      ∀ b, b < n →
        stackRow b ((run sg th cfg cells xs (some l) none).2.2.getD t []) =
          (stackRow b ((run sg th cfg cells xs (some l) none).2.1.getD t [])).map
            (fun pr => (pr.1.map (fun q => q * (1 - (l.getD t []).getD b 0)),
              pr.2.map (fun q => q * (1 - (l.getD t []).getD b 0))))) ∧
      ((l.getD t []).any (fun r => resetEps < r) = false →
        (run sg th cfg cells xs (some l) none).2.2.getD t [] =
          (run sg th cfg cells xs (some l) none).2.1.getD t []) := by
  have hpost := run_post_eq sg th cfg cells xs l none t ht
  have hrun := run_shape sg th cfg cells n hcells hclen hL1 xs (some l) none hxs
    (fun l' hl' => by rw [← Option.some_inj.mp hl']; exact ⟨hlen, hvl⟩)
    (fun st h => by cases h)
  have hlens := run_lengths sg th cfg cells xs (some l) none
  have hmem : (run sg th cfg cells xs (some l) none).2.1.getD t [] ∈
      (run sg th cfg cells xs (some l) none).2.1 :=
    getD_mem _ _ _ (by rw [hlens.2.1]; exact ht)
  have hpre := hrun.2.1 _ hmem
  have hrt : (l.getD t []).length = n := hvl _ (getD_mem l t [] (by omega))
  constructor
  · intro htrig b hb
    rw [hpost]
    simp only [resetStep]
    rw [if_pos htrig]
    simp only [stackRow, List.map_map]
    apply List.map_congr_left
    intro hc hmem'
    have hwf := hpre.2 hc hmem'
    simp only [Function.comp]
    rw [getD_scaleRows _ _ b n hrt hwf.1.1 hb, getD_scaleRows _ _ b n hrt hwf.2.1 hb]
  · intro hfalse
    rw [hpost]
    simp only [resetStep]
    rw [if_neg (by rw [hfalse]; exact Bool.false_ne_true)]

/-- Witness for `reset_scales_carried_state` at a concrete input with reset
value `1/2` at timestep 0. -/
theorem reset_scales_carried_state_witness :
    (([[(1 : ℚ)], [(0 : ℚ)]] : List Vec).length
          = ([[[(1 : ℚ)]], [[(0 : ℚ)]]] : List Mat).length ∧ (0 : ℕ) < 2) ∧
      ((([[(1 : ℚ)], [0]] : List Vec).getD 0 []).any (fun r => resetEps < r) = true →
        ∀ b, b < 1 →
          stackRow b ((run id id cfgOne [cellP] [[[(1 : ℚ)]], [[(0 : ℚ)]]]
              (some [[(1 : ℚ)], [0]]) none).2.2.getD 0 []) =
            (stackRow b ((run id id cfgOne [cellP] [[[(1 : ℚ)]], [[(0 : ℚ)]]]
                (some [[(1 : ℚ)], [0]]) none).2.1.getD 0 [])).map
              (fun pr => (pr.1.map (fun q => q * (1 - (([[(1 : ℚ)], [0]] : List Vec).getD 0 []).getD b 0)),
                pr.2.map (fun q => q * (1 - (([[(1 : ℚ)], [0]] : List Vec).getD 0 []).getD b 0))))) ∧
      ((([[(1 : ℚ)], [0]] : List Vec).getD 0 []).any (fun r => resetEps < r) = false →
        (run id id cfgOne [cellP] [[[(1 : ℚ)]], [[(0 : ℚ)]]]
            (some [[(1 : ℚ)], [0]]) none).2.2.getD 0 [] =
          (run id id cfgOne [cellP] [[[(1 : ℚ)]], [[(0 : ℚ)]]]
            (some [[(1 : ℚ)], [0]]) none).2.1.getD 0 []) :=
  ⟨⟨by decide, by decide⟩,
    (reset_scales_carried_state id id cfgOne [cellP] [[[(1 : ℚ)]], [[(0 : ℚ)]]]
        [[(1 : ℚ)], [0]] 1 0 (by decide) (by decide) (by decide) (by decide) (by decide)
        (by decide) (by decide)).1,
    (reset_scales_carried_state id id cfgOne [cellP] [[[(1 : ℚ)]], [[(0 : ℚ)]]]
        [[(1 : ℚ)], [0]] 1 0 (by decide) (by decide) (by decide) (by decide) (by decide)
        (by decide) (by decide)).2⟩

lemma run_outs_prefix (sg th : ℚ → ℚ) (cfg : Config) (cells : List LSTMCellParams) :
    ∀ (xs : List Mat) (l1 l2 : List Vec) (hx : Option (List (Mat × Mat))) (t : ℕ),
      (∀ t', t' < t → l1.getD t' [] = l2.getD t' []) →
      ∀ s, s ≤ t →
        (run sg th cfg cells xs (some l1) hx).1.getD s [] =
          (run sg th cfg cells xs (some l2) hx).1.getD s []
  | [], _, _, _, _, _, s, _ => by simp [run]
  | x :: xs, l1, l2, hx, t, hagree, 0, _ => by
    simp [run]
  | x :: xs, l1, l2, hx, t, hagree, s + 1, hs => by
    have hhead : l1.headD [] = l2.headD [] := by
      rw [headD_eq_getD_zero, headD_eq_getD_zero]
      exact hagree 0 (by omega)
    simp only [run, List.getD_cons_succ, Option.map_some']
    rw [hhead]
    exact run_outs_prefix sg th cfg cells xs l1.tail l2.tail _ (t - 1)
      (fun t' ht' => by
        rw [tail_getD, tail_getD]
        exact hagree (t' + 1) (by omega)) s (by omega)

lemma map_mul_one_sub_one (r : Vec) :
    r.map (fun q => q * (1 - (1 : ℚ))) = List.replicate r.length 0 := by
  induction r with
  | nil => simp
  | cons q qs ih => simp [ih, List.replicate_succ]

/-- C1 (counterexample): a reset of `1/2` exceeds the `1e-6` threshold, yet
the state carried into the next timestep is the new state scaled by `1/2` —
`[1/2]`, not the zero vector — so "the hidden and cell vectors … are exactly
zero" fails for reset values other than `1.0`. -/
theorem reset_above_threshold_not_zeroed :
    resetEps < mkRat 1 2 ∧
      stackRow 0 ((run id id cfgOne [cellP] [[[(1 : ℚ)]], [[(0 : ℚ)]]]
          (some [[mkRat 1 2], [(0 : ℚ)]]) none).2.2.getD 0 []) =
        [([mkRat 1 2], [mkRat 1 2])] ∧
      ([mkRat 1 2] : Vec) ≠ List.replicate cfgOne.hidden_size 0 := by
  refine ⟨by norm_num [resetEps, Rat.mkRat_eq_div], ?_,
    by norm_num [cfgOne, Rat.mkRat_eq_div]⟩
  norm_num [run, cellForward, cellLoop, assembleInput, lstmCellB, lstmCellRow, zipWith3,
    vAdd, vMul, matVec, dot, zeros, zerosM, rowAppend, snapshot, resetStep, scaleRows,
    resetEps, stackRow, cfgOne, cellP, Rat.mkRat_eq_div]

/-- C1 (amended): if `reset[b, t] = 1.0` exactly, then the hidden and cell
vectors of every layer carried into timestep `t+1` for batch element `b` are
exactly zero (for other values above the threshold the state is scaled by
`1 - reset[b, t]`); and the output emitted at timestep `t` never depends on
the reset values at times `≥ t`, so the reset leaves that timestep's output
unaffected. -/
theorem reset_one_zeroes_state (sg th : ℚ → ℚ) (cfg : Config)
    (cells : List LSTMCellParams) (xs : List Mat) (l : List Vec) (n b t : ℕ)
    (hL1 : 1 ≤ cfg.layers) (hcells : ∀ p ∈ cells, WFP cfg.hidden_size p)
    (hclen : cells.length = cfg.layers) (hxs : ∀ x ∈ xs, x.length = n)
    (hlen : l.length = xs.length) (hvl : ∀ v ∈ l, v.length = n)
    (hb : b < n) (ht : t < xs.length) (hr1 : (l.getD t []).getD b 0 = 1) :
    (∀ pr ∈ stackRow b ((run sg th cfg cells xs (some l) none).2.2.getD t []),
        pr.1 = List.replicate cfg.hidden_size 0 ∧
          pr.2 = List.replicate cfg.hidden_size 0) ∧
      (∀ l' : List Vec, (∀ t', t' < t → l.getD t' [] = l'.getD t' []) →
        (run sg th cfg cells xs (some l) none).1.getD t [] =
          (run sg th cfg cells xs (some l') none).1.getD t []) := by
  have hpost := run_post_eq sg th cfg cells xs l none t ht
  have hrun := run_shape sg th cfg cells n hcells hclen hL1 xs (some l) none hxs
    (fun l' hl' => by rw [← Option.some_inj.mp hl']; exact ⟨hlen, hvl⟩)
    (fun st h => by cases h)
  have hlens := run_lengths sg th cfg cells xs (some l) none
  have hpre := hrun.2.1 _ (getD_mem _ t [] (by rw [hlens.2.1]; exact ht))
  have hrt : (l.getD t []).length = n := hvl _ (getD_mem l t [] (by omega))
  have htrig : (l.getD t []).any (fun r => resetEps < r) = true := by
    rw [List.any_eq_true]
    refine ⟨(l.getD t []).getD b 0, getD_mem _ b 0 (by omega), ?_⟩
    rw [hr1]
    rw [decide_eq_true_eq]
    norm_num [resetEps]
  constructor
  · intro pr hpr
    rw [hpost] at hpr
    simp only [resetStep] at hpr
    rw [if_pos htrig] at hpr
    simp only [stackRow, List.map_map, List.mem_map] at hpr
    obtain ⟨hc, hmem', rfl⟩ := hpr
    have hwf := hpre.2 hc hmem'
    simp only [Function.comp]
    rw [getD_scaleRows _ _ b n hrt hwf.1.1 hb, getD_scaleRows _ _ b n hrt hwf.2.1 hb, hr1,
      map_mul_one_sub_one, map_mul_one_sub_one]
    constructor
    · rw [hwf.1.2 _ (getD_mem hc.1 b [] (by rw [hwf.1.1]; exact hb))]
    · rw [hwf.2.2 _ (getD_mem hc.2 b [] (by rw [hwf.2.1]; exact hb))]
  · intro l' hagree
    exact run_outs_prefix sg th cfg cells xs l l' none t hagree t (le_refl t)

/-- Witness for `reset_one_zeroes_state` with reset exactly `1.0` at
timestep 0 of a two-step sequence. -/
theorem reset_one_zeroes_state_witness :
    ((0 : ℕ) < 1 ∧ (([[(1 : ℚ)], [(0 : ℚ)]] : List Vec).getD 0 []).getD 0 0 = 1) ∧
      (∀ pr ∈ stackRow 0 ((run id id cfgOne [cellP] [[[(1 : ℚ)]], [[(0 : ℚ)]]]
            (some [[(1 : ℚ)], [(0 : ℚ)]]) none).2.2.getD 0 []),
          pr.1 = List.replicate cfgOne.hidden_size 0 ∧
            pr.2 = List.replicate cfgOne.hidden_size 0) ∧
        (∀ l' : List Vec, (∀ t', t' < 0 →
            ([[(1 : ℚ)], [(0 : ℚ)]] : List Vec).getD t' [] = l'.getD t' []) →
          (run id id cfgOne [cellP] [[[(1 : ℚ)]], [[(0 : ℚ)]]]
              (some [[(1 : ℚ)], [(0 : ℚ)]]) none).1.getD 0 [] =
            (run id id cfgOne [cellP] [[[(1 : ℚ)]], [[(0 : ℚ)]]]
              (some l') none).1.getD 0 []) :=
  ⟨⟨by decide, by decide⟩,
    reset_one_zeroes_state id id cfgOne [cellP] [[[(1 : ℚ)]], [[(0 : ℚ)]]]
      [[(1 : ℚ)], [(0 : ℚ)]] 1 0 0 (by decide) (by decide) (by decide) (by decide)
      (by decide) (by decide) (by decide) (by decide) (by decide)⟩

lemma cellForward_single (sg th : ℚ → ℚ) (is hs : ℕ) (p : LSTMCellParams) (x : Mat)
    (hc : Option (Mat × Mat)) :
    cellForward sg th ⟨is, hs, 1, false, false⟩ [p] x (hc.map (fun z => [z])) =
      [lstmCellB sg th hs p x hc] := by
  cases hc <;> simp [cellForward, cellLoop, assembleInput]

lemma run_single (sg th : ℚ → ℚ) (is hs : ℕ) (p : LSTMCellParams) :
    ∀ (xs : List Mat) (hc : Option (Mat × Mat)),
      (run sg th ⟨is, hs, 1, false, false⟩ [p] xs none (hc.map (fun z => [z]))).1 =
        (singleLSTMSeq sg th hs p xs hc).map
          (fun m => (List.range m.length).map (fun b => [m.getD b []]))
  | [], hc => by simp [run, singleLSTMSeq]
  | x :: xs, hc => by
    have hrec := run_single sg th is hs p xs (some (lstmCellB sg th hs p x hc))
    simp only [Option.map_some'] at hrec
    simp only [run, cellForward_single, singleLSTMSeq, List.map_cons, Option.map_none']
    rw [hrec]
    simp [snapshot]

lemma singleLSTMSeq_lengths (sg th : ℚ → ℚ) (hs : ℕ) (p : LSTMCellParams) (n : ℕ) :
    ∀ (xs : List Mat) (hc : Option (Mat × Mat)),
      (∀ x ∈ xs, x.length = n) →
      (∀ hcp, hc = some hcp → hcp.1.length = n ∧ hcp.2.length = n) →
      ∀ m ∈ singleLSTMSeq sg th hs p xs hc, m.length = n
  | [], hc => fun _ _ m hm => by simp [singleLSTMSeq] at hm
  | x :: xs, hc => fun hxs hhc m hm => by
    have hcell := lstmCellB_len sg th hs p x hc n (hxs x (by simp))
      (fun m1 m2 hm12 => hhc (m1, m2) hm12)
    simp only [singleLSTMSeq, List.mem_cons] at hm
    rcases hm with rfl | hm
    · exact hcell.1
    · exact singleLSTMSeq_lengths sg th hs p n xs (some (lstmCellB sg th hs p x hc))
        (fun x' hx' => hxs x' (by simp [hx']))
        (fun hcp hcp' => by rw [← Option.some_inj.mp hcp']; exact hcell) m hm

lemma catTime_getD (outs : List (List (List Vec))) (b n : ℕ)
    (houts : ∀ o ∈ outs, o.length = n) (hb : b < n) :
    (catTime outs).getD b [] = outs.map (fun ot => ot.getD b []) := by
  cases outs with
  | nil => simp [catTime]
  | cons o rest =>
    simp only [catTime]
    rw [getD_range_map _ [] o.length b (by rw [houts o (by simp)]; exact hb)]

/-- C6: with `layers = 1`, `every_layer_input = False` and
`use_previous_higher = False`, `MultilayerLSTM` is a single standard LSTM
cell stepped over the sequence: for every batch row, the output at each
timestep is exactly that cell's hidden output (as the one-layer list the
wrapper emits). -/
theorem single_layer_equiv (sg th : ℚ → ℚ) (is hs : ℕ) (p : LSTMCellParams)
    (xs : List Mat) (n b : ℕ) (hxs : ∀ x ∈ xs, x.length = n) (hb : b < n) :
    (lstmForward sg th ⟨is, hs, 1, false, false⟩ [p] xs none).getD b [] =
      (singleLSTMSeq sg th hs p xs none).map (fun m => [m.getD b []]) := by
  have hsingle := run_single sg th is hs p xs none
  simp only [Option.map_none'] at hsingle
  have hlens : ∀ m ∈ singleLSTMSeq sg th hs p xs none, m.length = n :=
    singleLSTMSeq_lengths sg th hs p n xs none hxs (fun hcp h => by cases h)
  simp only [lstmForward]
  rw [hsingle, catTime_getD _ b n ?houts hb]
  case houts =>
    intro o ho
    obtain ⟨m, hm, rfl⟩ := List.mem_map.mp ho
    simp [hlens m hm]
  rw [List.map_map]
  apply List.map_congr_left
  intro m hm
  simp only [Function.comp]
  exact getD_range_map _ [] _ b (by rw [hlens m hm]; exact hb)

/-- Witness for `single_layer_equiv` on a concrete two-step sequence. -/
theorem single_layer_equiv_witness :
    ((∀ x ∈ [[[(1 : ℚ)]], [[(0 : ℚ)]]], x.length = 1) ∧ (0 : ℕ) < 1) ∧
      (lstmForward id id ⟨1, 1, 1, false, false⟩ [cellP]
          [[[(1 : ℚ)]], [[(0 : ℚ)]]] none).getD 0 [] =
        (singleLSTMSeq id id 1 cellP [[[(1 : ℚ)]], [[(0 : ℚ)]]] none).map
          (fun m => [m.getD 0 []]) :=
  ⟨⟨by decide, by decide⟩,
    single_layer_equiv id id 1 1 cellP [[[(1 : ℚ)]], [[(0 : ℚ)]]] 1 0 (by decide) (by decide)⟩

lemma rowOfState_congr (hs b : ℕ) (o1 o2 : Option (Mat × Mat))
    (h : o1.map (fun hc => (hc.1.getD b [], hc.2.getD b [])) =
      o2.map (fun hc => (hc.1.getD b [], hc.2.getD b []))) :
    rowOfState hs b o1 = rowOfState hs b o2 := by
  cases o1 <;> cases o2 <;> simp only [Option.map_none', Option.map_some'] at h
  · rfl
  · cases h
  · cases h
  · simp only [rowOfState]
    exact Option.some_inj.mp h

lemma assembleInput_row (cfg : Config) (input_ : Mat) (hxl : List (Option (Mat × Mat)))
    (layer : ℕ) (recent : Mat) (n b : ℕ) (hr : recent.length = n)
    (hin : input_.length = n) (hb : b < n) (hhx : hxlLen n hxl) :
    (assembleInput cfg input_ hxl layer recent).getD b [] =
      (if layer + 1 < cfg.layers ∧ cfg.use_previous_higher then
        (if 0 < layer ∧ cfg.every_layer_input then recent.getD b [] ++ input_.getD b []
          else recent.getD b []) ++
          (match rowHxl b hxl (layer + 1) with
            | none => zeros cfg.hidden_size
            | some pr => pr.1)
      else (if 0 < layer ∧ cfg.every_layer_input then recent.getD b [] ++ input_.getD b []
          else recent.getD b [])) := by
  have hr1len : (if 0 < layer ∧ cfg.every_layer_input then rowAppend recent input_
      else recent).length = n := by
    split
    · simp [length_rowAppend, hr, hin]
    · exact hr
  have hr1row : (if 0 < layer ∧ cfg.every_layer_input then rowAppend recent input_
      else recent).getD b [] =
      (if 0 < layer ∧ cfg.every_layer_input then recent.getD b [] ++ input_.getD b []
        else recent.getD b []) := by
    by_cases heli : 0 < layer ∧ cfg.every_layer_input = true
    · rw [if_pos heli, if_pos heli]
      exact getD_rowAppend _ _ b (by omega) (by omega)
    · rw [if_neg heli, if_neg heli]
  simp only [assembleInput]
  by_cases hcond : layer + 1 < cfg.layers ∧ cfg.use_previous_higher = true
  · rw [if_pos hcond, if_pos hcond]
    cases hget : hxl.getD (layer + 1) none with
    | none =>
      simp only [hget, rowHxl, Option.map_none']
      rw [getD_rowAppend _ _ b (by omega) (by rw [length_zerosM]; omega), hr1row]
      simp only [zerosM]
      rw [getD_replicate' _ _ _ _ (by omega)]
    | some hcp =>
      have hlen1 := (hhx (layer + 1) hcp.1 hcp.2 (by rw [hget])).1
      simp only [hget, rowHxl, Option.map_some']
      rw [getD_rowAppend _ _ b (by omega) (by omega), hr1row]
  · rw [if_neg hcond, if_neg hcond]
    exact hr1row

lemma snapshot_row (stack : List (Mat × Mat)) (n b : ℕ)
    (hst : ∀ hc ∈ stack, hc.1.length = n) (hb : b < n) :
    (snapshot stack).getD b [] = stack.map (fun p => p.1.getD b []) := by
  cases stack with
  | nil => simp [snapshot]
  | cons hc rest =>
    simp only [snapshot]
    exact getD_range_map _ [] _ b (by rw [hst hc (by simp)]; exact hb)

lemma getD_map_some_eq_getElem? {α : Type _} :
    ∀ (st : List α) (j : ℕ), (st.map some).getD j none = st[j]?
  | [], j => by simp [getD_of_le]
  | a :: as, 0 => by simp
  | a :: as, j + 1 => by
    simpa using getD_map_some_eq_getElem? as j

lemma resetStep_row_zero (stack : List (Mat × Mat)) (rt : Vec) (n b : ℕ)
    (hst : ∀ hc ∈ stack, hc.1.length = n ∧ hc.2.length = n)
    (hrt : rt.length = n) (hb : b < n) (h0 : rt.getD b 0 = 0) :
    stackRow b (resetStep stack rt) = stackRow b stack := by
  simp only [resetStep]
  split
  · simp only [stackRow, List.map_map]
    apply List.map_congr_left
    intro hc hm
    simp only [Function.comp]
    rw [getD_scaleRows _ _ b n hrt (hst hc hm).1 hb,
      getD_scaleRows _ _ b n hrt (hst hc hm).2 hb, h0]
    simp
  · rfl

lemma resetStep_row_pos (stack : List (Mat × Mat)) (rt : Vec) (n b : ℕ)
    (hst : ∀ hc ∈ stack, hc.1.length = n ∧ hc.2.length = n)
    (hrt : rt.length = n) (hb : b < n) (hpos : resetEps < rt.getD b 0) :
    stackRow b (resetStep stack rt) =
      (stackRow b stack).map (fun pr => (pr.1.map (fun q => q * (1 - rt.getD b 0)),
        pr.2.map (fun q => q * (1 - rt.getD b 0)))) := by
  have htrig : rt.any (fun r => resetEps < r) = true := by
    rw [List.any_eq_true]
    exact ⟨rt.getD b 0, getD_mem _ b 0 (by omega), by rw [decide_eq_true_eq]; exact hpos⟩
  simp only [resetStep]
  rw [if_pos htrig]
  simp only [stackRow, List.map_map]
  apply List.map_congr_left
  intro hc hm
  simp only [Function.comp]
  rw [getD_scaleRows _ _ b n hrt (hst hc hm).1 hb,
    getD_scaleRows _ _ b n hrt (hst hc hm).2 hb]

lemma resetStep_stackLen (stack : List (Mat × Mat)) (rt : Vec) (n : ℕ)
    (hst : ∀ hc ∈ stack, hc.1.length = n ∧ hc.2.length = n) (hrt : rt.length = n) :
    ∀ hc ∈ resetStep stack rt, hc.1.length = n ∧ hc.2.length = n := by
  simp only [resetStep]
  split
  · intro hc hm
    simp only [List.mem_map] at hm
    obtain ⟨p, hp, rfl⟩ := hm
    constructor <;>
      simp [scaleRows, List.length_zipWith, hrt, (hst p hp).1, (hst p hp).2]
  · exact hst

lemma cellLoop_stackLen (sg th : ℚ → ℚ) (cfg : Config) (cells : List LSTMCellParams)
    (input_ : Mat) (hxl : List (Option (Mat × Mat))) (n : ℕ)
    (hin : input_.length = n) (hhx : hxlLen n hxl) :
    ∀ (rem layer : ℕ) (recent : Mat), recent.length = n →
      ∀ hc ∈ cellLoop sg th cfg cells input_ hxl rem layer recent,
        hc.1.length = n ∧ hc.2.length = n
  | 0, layer, recent => fun _ hc hmem => by simp [cellLoop] at hmem
  | rem + 1, layer, recent => fun hr hc hmem => by
    have hasm : (assembleInput cfg input_ hxl layer recent).length = n :=
      length_assembleInput cfg input_ hxl layer recent n hr hin hhx
    have hout := lstmCellB_len sg th cfg.hidden_size (cells.getD layer ⟨[], [], [], []⟩)
      (assembleInput cfg input_ hxl layer recent) (hxl.getD layer none) n hasm
      (fun m1 m2 hm => hhx layer m1 m2 hm)
    simp only [cellLoop, List.mem_cons] at hmem
    rcases hmem with rfl | hmem
    · exact hout
    · exact cellLoop_stackLen sg th cfg cells input_ hxl n hin hhx rem (layer + 1) _
        hout.1 hc hmem

lemma cellForward_stackLen (sg th : ℚ → ℚ) (cfg : Config) (cells : List LSTMCellParams)
    (x : Mat) (hx : Option (List (Mat × Mat))) (n : ℕ) (hxn : x.length = n)
    (hhx : ∀ st, hx = some st → ∀ hc ∈ st, hc.1.length = n ∧ hc.2.length = n) :
    ∀ hc ∈ cellForward sg th cfg cells x hx, hc.1.length = n ∧ hc.2.length = n := by
  cases hx with
  | none =>
    simp only [cellForward]
    exact cellLoop_stackLen sg th cfg cells x _ n hxn
      (fun j m1 m2 hj => by rw [getD_replicate_none] at hj; cases hj) cfg.layers 0 x hxn
  | some st =>
    simp only [cellForward]
    exact cellLoop_stackLen sg th cfg cells x _ n hxn
      (fun j m1 m2 hj => hhx st rfl (m1, m2) (getD_map_some_mem st j (m1, m2) hj))
      cfg.layers 0 x hxn

lemma cellLoop_row_congr (sg th : ℚ → ℚ) (cfg : Config) (cells : List LSTMCellParams)
    (in1 in2 : Mat) (hxl1 hxl2 : List (Option (Mat × Mat))) (n b : ℕ)
    (hin1 : in1.length = n) (hin2 : in2.length = n) (hb : b < n)
    (hinrow : in1.getD b [] = in2.getD b [])
    (hhx1 : hxlLen n hxl1) (hhx2 : hxlLen n hxl2)
    (hrowhxl : ∀ j, rowHxl b hxl1 j = rowHxl b hxl2 j) :
    ∀ (rem layer : ℕ) (r1 r2 : Mat), r1.length = n → r2.length = n →
      r1.getD b [] = r2.getD b [] →
      stackRow b (cellLoop sg th cfg cells in1 hxl1 rem layer r1) =
        stackRow b (cellLoop sg th cfg cells in2 hxl2 rem layer r2)
  | 0, layer, r1, r2 => fun _ _ _ => by simp [cellLoop, stackRow]
  | rem + 1, layer, r1, r2 => fun h1 h2 hrow => by
    have ha1 : (assembleInput cfg in1 hxl1 layer r1).length = n :=
      length_assembleInput cfg in1 hxl1 layer r1 n h1 hin1 hhx1
    have ha2 : (assembleInput cfg in2 hxl2 layer r2).length = n :=
      length_assembleInput cfg in2 hxl2 layer r2 n h2 hin2 hhx2
    have harow : (assembleInput cfg in1 hxl1 layer r1).getD b [] =
        (assembleInput cfg in2 hxl2 layer r2).getD b [] := by
      rw [assembleInput_row cfg in1 hxl1 layer r1 n b h1 hin1 hb hhx1,
        assembleInput_row cfg in2 hxl2 layer r2 n b h2 hin2 hb hhx2,
        hrow, hinrow, hrowhxl (layer + 1)]
    have hstate : rowOfState cfg.hidden_size b (hxl1.getD layer none) =
        rowOfState cfg.hidden_size b (hxl2.getD layer none) :=
      rowOfState_congr _ _ _ _ (hrowhxl layer)
    have hcell1 := lstmCellB_row sg th cfg.hidden_size (cells.getD layer ⟨[], [], [], []⟩)
      (assembleInput cfg in1 hxl1 layer r1) (hxl1.getD layer none) n b ha1 hb
      (fun m1 m2 hm => hhx1 layer m1 m2 hm)
    have hcell2 := lstmCellB_row sg th cfg.hidden_size (cells.getD layer ⟨[], [], [], []⟩)
      (assembleInput cfg in2 hxl2 layer r2) (hxl2.getD layer none) n b ha2 hb
      (fun m1 m2 hm => hhx2 layer m1 m2 hm)
    have hlen1 := lstmCellB_len sg th cfg.hidden_size (cells.getD layer ⟨[], [], [], []⟩)
      (assembleInput cfg in1 hxl1 layer r1) (hxl1.getD layer none) n ha1
      (fun m1 m2 hm => hhx1 layer m1 m2 hm)
    have hlen2 := lstmCellB_len sg th cfg.hidden_size (cells.getD layer ⟨[], [], [], []⟩)
      (assembleInput cfg in2 hxl2 layer r2) (hxl2.getD layer none) n ha2
      (fun m1 m2 hm => hhx2 layer m1 m2 hm)
    simp only [cellLoop, stackRow, List.map_cons]
    congr 1
    · rw [hcell1.1, hcell1.2, hcell2.1, hcell2.2, harow, hstate]
    · exact cellLoop_row_congr sg th cfg cells in1 in2 hxl1 hxl2 n b hin1 hin2 hb hinrow
        hhx1 hhx2 hrowhxl rem (layer + 1) _ _ hlen1.1 hlen2.1
        (by rw [hcell1.1, hcell2.1, harow, hstate])

lemma cellForward_row_congr (sg th : ℚ → ℚ) (cfg : Config) (cells : List LSTMCellParams)
    (x1 x2 : Mat) (hx1 hx2 : Option (List (Mat × Mat))) (n b : ℕ)
    (hx1n : x1.length = n) (hx2n : x2.length = n) (hb : b < n)
    (hrowx : x1.getD b [] = x2.getD b [])
    (hlen1 : ∀ st, hx1 = some st → ∀ hc ∈ st, hc.1.length = n ∧ hc.2.length = n)
    (hlen2 : ∀ st, hx2 = some st → ∀ hc ∈ st, hc.1.length = n ∧ hc.2.length = n)
    (hrowhx : (match hx1, hx2 with
      | none, none => True
      | some st1, some st2 => stackRow b st1 = stackRow b st2
      | _, _ => False)) :
    stackRow b (cellForward sg th cfg cells x1 hx1) =
      stackRow b (cellForward sg th cfg cells x2 hx2) := by
  cases hx1 with
  | none =>
    cases hx2 with
    | none =>
      simp only [cellForward]
      exact cellLoop_row_congr sg th cfg cells x1 x2 _ _ n b hx1n hx2n hb hrowx
        (fun j m1 m2 hj => by rw [getD_replicate_none] at hj; cases hj)
        (fun j m1 m2 hj => by rw [getD_replicate_none] at hj; cases hj)
        (fun j => by simp [rowHxl, getD_replicate_none])
        cfg.layers 0 x1 x2 hx1n hx2n hrowx
    | some st2 => exact absurd hrowhx (by simp)
  | some st1 =>
    cases hx2 with
    | none => exact absurd hrowhx (by simp)
    | some st2 =>
      have hrowst : stackRow b st1 = stackRow b st2 := hrowhx
      have hstlen : st1.length = st2.length := by
        have := congrArg List.length hrowst
        simpa [stackRow] using this
      simp only [cellForward]
      refine cellLoop_row_congr sg th cfg cells x1 x2 _ _ n b hx1n hx2n hb hrowx
        (fun j m1 m2 hj => hlen1 st1 rfl (m1, m2) (getD_map_some_mem st1 j (m1, m2) hj))
        (fun j m1 m2 hj => hlen2 st2 rfl (m1, m2) (getD_map_some_mem st2 j (m1, m2) hj))
        (fun j => ?_) cfg.layers 0 x1 x2 hx1n hx2n hrowx
      simp only [rowHxl, getD_map_some_eq_getElem?]
      rw [← List.getElem?_map, ← List.getElem?_map]
      simp only [stackRow] at hrowst
      rw [hrowst]

lemma run_row_congr (sg th : ℚ → ℚ) (cfg : Config) (cells : List LSTMCellParams)
    (n b : ℕ) (hb : b < n) :
    ∀ (xs1 xs2 : List Mat) (rs1 rs2 : Option (List Vec))
      (hx1 hx2 : Option (List (Mat × Mat))),
      xs1.length = xs2.length →
      (∀ x ∈ xs1, x.length = n) → (∀ x ∈ xs2, x.length = n) →
      (∀ t, t < xs1.length → (xs1.getD t []).getD b [] = (xs2.getD t []).getD b []) →
      resetsRel n b xs1.length rs1 rs2 →
      hxRel n b hx1 hx2 →
      (run sg th cfg cells xs1 rs1 hx1).1.map (fun o => o.getD b []) =
          (run sg th cfg cells xs2 rs2 hx2).1.map (fun o => o.getD b []) ∧
        (run sg th cfg cells xs1 rs1 hx1).2.1.map (stackRow b) =
          (run sg th cfg cells xs2 rs2 hx2).2.1.map (stackRow b) ∧
        (run sg th cfg cells xs1 rs1 hx1).2.2.map (stackRow b) =
          (run sg th cfg cells xs2 rs2 hx2).2.2.map (stackRow b)
  | [], xs2, rs1, rs2, hx1, hx2 => fun hlen _ _ _ _ _ => by
    cases xs2 with
    | nil => simp [run]
    | cons _ _ => simp at hlen
  | x1 :: xs1, xs2, rs1, rs2, hx1, hx2 => fun hlen hxs1 hxs2 hrows hrs hhx => by
    cases xs2 with
    | nil => simp at hlen
    | cons x2 xs2' =>
      have hx1n : x1.length = n := hxs1 _ (by simp)
      have hx2n : x2.length = n := hxs2 _ (by simp)
      have hrow0 : x1.getD b [] = x2.getD b [] := by
        have := hrows 0 (by simp)
        simpa using this
      obtain ⟨hstackrow, hstlen1, hstlen2⟩ :
          stackRow b (cellForward sg th cfg cells x1 hx1) =
              stackRow b (cellForward sg th cfg cells x2 hx2) ∧
            (∀ hc ∈ cellForward sg th cfg cells x1 hx1,
              hc.1.length = n ∧ hc.2.length = n) ∧
            (∀ hc ∈ cellForward sg th cfg cells x2 hx2,
              hc.1.length = n ∧ hc.2.length = n) := by
        rcases hhx with ⟨rfl, rfl⟩ | ⟨st1, st2, rfl, rfl, hrowst, hl1, hl2⟩
        · exact ⟨cellForward_row_congr sg th cfg cells x1 x2 none none n b hx1n hx2n hb
              hrow0 (fun st h => nomatch h) (fun st h => nomatch h) trivial,
            cellForward_stackLen sg th cfg cells x1 none n hx1n (fun st h => nomatch h),
            cellForward_stackLen sg th cfg cells x2 none n hx2n (fun st h => nomatch h)⟩
        · exact ⟨cellForward_row_congr sg th cfg cells x1 x2 (some st1) (some st2) n b
              hx1n hx2n hb hrow0
              (fun st h => by rw [← Option.some_inj.mp h]; exact hl1)
              (fun st h => by rw [← Option.some_inj.mp h]; exact hl2) hrowst,
            cellForward_stackLen sg th cfg cells x1 (some st1) n hx1n
              (fun st h => by rw [← Option.some_inj.mp h]; exact hl1),
            cellForward_stackLen sg th cfg cells x2 (some st2) n hx2n
              (fun st h => by rw [← Option.some_inj.mp h]; exact hl2)⟩
      have houtrow : (snapshot (cellForward sg th cfg cells x1 hx1)).getD b [] =
          (snapshot (cellForward sg th cfg cells x2 hx2)).getD b [] := by
        rw [snapshot_row _ n b (fun hc h => (hstlen1 hc h).1) hb,
          snapshot_row _ n b (fun hc h => (hstlen2 hc h).1) hb]
        calc (cellForward sg th cfg cells x1 hx1).map (fun p => p.1.getD b [])
            = (stackRow b (cellForward sg th cfg cells x1 hx1)).map Prod.fst := by
              simp [stackRow, List.map_map, Function.comp]
          _ = (stackRow b (cellForward sg th cfg cells x2 hx2)).map Prod.fst := by
              rw [hstackrow]
          _ = (cellForward sg th cfg cells x2 hx2).map (fun p => p.1.getD b []) := by
              simp [stackRow, List.map_map, Function.comp]
      have hrowtail : ∀ t, t < xs1.length →
          (xs1.getD t []).getD b [] = (xs2'.getD t []).getD b [] := fun t ht => by
        have := hrows (t + 1) (by simpa using Nat.succ_lt_succ ht)
        simpa using this
      rcases hrs with ⟨rfl, rfl⟩ | ⟨l1, l2, rfl, rfl, hl1len, hl2len, hv1, hv2, hpt⟩
      · have hrec := run_row_congr sg th cfg cells n b hb xs1 xs2' none none
          (some (cellForward sg th cfg cells x1 hx1))
          (some (cellForward sg th cfg cells x2 hx2))
          (by simpa using hlen)
          (fun x hx => hxs1 x (by simp [hx]))
          (fun x hx => hxs2 x (by simp [hx]))
          hrowtail
          (Or.inl ⟨rfl, rfl⟩)
          (Or.inr ⟨_, _, rfl, rfl, hstackrow, hstlen1, hstlen2⟩)
        simp only [run, List.map_cons, Option.map_none']
        exact ⟨by rw [houtrow, hrec.1], by rw [hstackrow, hrec.2.1],
          by rw [hstackrow, hrec.2.2]⟩
      · have hl1pos : 0 < l1.length := by simp [hl1len]
        have hl2pos : 0 < l2.length := by simp [hl2len]
        have hrt1n : (l1.headD []).length = n := hv1 _ (headD_mem l1 [] hl1pos)
        have hrt2n : (l2.headD []).length = n := hv2 _ (headD_mem l2 [] hl2pos)
        have hr0 := hpt 0 (by simp)
        have hrteq : (l1.headD []).getD b 0 = (l2.headD []).getD b 0 := by
          rw [headD_eq_getD_zero, headD_eq_getD_zero]
          exact hr0.1
        have hpostrow : stackRow b
            (resetStep (cellForward sg th cfg cells x1 hx1) (l1.headD [])) =
            stackRow b (resetStep (cellForward sg th cfg cells x2 hx2) (l2.headD [])) := by
          rcases hr0.2 with hz | hp
          · have hz1 : (l1.headD []).getD b 0 = 0 := by
              rw [headD_eq_getD_zero]; exact hz
            have hz2 : (l2.headD []).getD b 0 = 0 := by rw [← hrteq]; exact hz1
            rw [resetStep_row_zero _ _ n b hstlen1 hrt1n hb hz1,
              resetStep_row_zero _ _ n b hstlen2 hrt2n hb hz2, hstackrow]
          · have hp1 : resetEps < (l1.headD []).getD b 0 := by
              rw [headD_eq_getD_zero]; exact hp
            have hp2 : resetEps < (l2.headD []).getD b 0 := by rw [← hrteq]; exact hp1
            rw [resetStep_row_pos _ _ n b hstlen1 hrt1n hb hp1,
              resetStep_row_pos _ _ n b hstlen2 hrt2n hb hp2, hstackrow, hrteq]
        have hplen1 := resetStep_stackLen (cellForward sg th cfg cells x1 hx1)
          (l1.headD []) n hstlen1 hrt1n
        have hplen2 := resetStep_stackLen (cellForward sg th cfg cells x2 hx2)
          (l2.headD []) n hstlen2 hrt2n
        have htailsRel : resetsRel n b xs1.length (some l1.tail) (some l2.tail) := by
          refine Or.inr ⟨l1.tail, l2.tail, rfl, rfl, ?_, ?_,
            fun v hv => hv1 v (List.mem_of_mem_tail hv),
            fun v hv => hv2 v (List.mem_of_mem_tail hv), fun t ht => ?_⟩
          · rw [List.length_tail, hl1len]
            simp
          · rw [List.length_tail, hl2len]
            simpa using hlen
          · rw [tail_getD, tail_getD]
            exact hpt (t + 1) (by simpa using Nat.succ_lt_succ ht)
        have hrec := run_row_congr sg th cfg cells n b hb xs1 xs2'
          (some l1.tail) (some l2.tail)
          (some (resetStep (cellForward sg th cfg cells x1 hx1) (l1.headD [])))
          (some (resetStep (cellForward sg th cfg cells x2 hx2) (l2.headD [])))
          (by simpa using hlen)
          (fun x hx => hxs1 x (by simp [hx]))
          (fun x hx => hxs2 x (by simp [hx]))
          hrowtail
          htailsRel
          (Or.inr ⟨_, _, rfl, rfl, hpostrow, hplen1, hplen2⟩)
        simp only [run, List.map_cons, Option.map_some']
        exact ⟨by rw [houtrow, hrec.1], by rw [hstackrow, hrec.2.1],
          by rw [hpostrow, hrec.2.2]⟩

/-- C2 (counterexample): batch element 0 has identical inputs and identical
resets in both runs (`1/2000000` then `0`, with `1/2000000` positive but at
or below the `1e-6` threshold), yet its outputs differ between the two runs:
the other element's reset (`1` vs `0`) flips the `torch.any` guard, so run A
multiplies element 0's carried state by `1 - 1/2000000` while run B leaves it
untouched. -/
theorem batch_element_leak :
    (([[mkRat 1 2000000, (1 : ℚ)], [0, 0]] : List Vec).map (fun v => v.getD 0 0) =
        ([[mkRat 1 2000000, (0 : ℚ)], [0, 0]] : List Vec).map (fun v => v.getD 0 0)) ∧
      (0 < mkRat 1 2000000 ∧ mkRat 1 2000000 ≤ resetEps) ∧
      (lstmForward id id cfgOne [cellP] [[[(1 : ℚ)], [1]], [[(0 : ℚ)], [0]]]
          (some [[mkRat 1 2000000, 1], [0, 0]])).getD 0 [] ≠
        (lstmForward id id cfgOne [cellP] [[[(1 : ℚ)], [1]], [[(0 : ℚ)], [0]]]
          (some [[mkRat 1 2000000, 0], [0, 0]])).getD 0 [] := by
  refine ⟨by norm_num [Rat.mkRat_eq_div],
    ⟨by norm_num [Rat.mkRat_eq_div], by norm_num [resetEps, Rat.mkRat_eq_div]⟩, ?_⟩
  norm_num [lstmForward, catTime, run, cellForward, cellLoop, assembleInput, lstmCellB,
    lstmCellRow, zipWith3, vAdd, vMul, matVec, dot, zeros, zerosM, rowAppend, snapshot,
    resetStep, scaleRows, resetEps, cfgOne, cellP, Rat.mkRat_eq_div]

/-- C2 (amended): batch element `b`'s outputs and carried state depend only on
element `b`'s own input rows and reset values, provided element `b`'s reset at
each timestep is either exactly `0` or above the `1e-6` threshold (when a
reset is supplied; or no reset in either run): two runs agreeing on row `b`'s
inputs and resets then produce identical outputs and carried state for `b` at
every timestep. Without that proviso the property fails (`batch_element_leak`):
a reset in `(0, 1e-6]` for `b` makes `b`'s state depend on the other elements'
resets through the `torch.any` guard. -/
theorem batch_row_independent (sg th : ℚ → ℚ) (cfg : Config)
    (cells : List LSTMCellParams) (xs1 xs2 : List Mat) (rs1 rs2 : Option (List Vec))
    (n b : ℕ) (hb : b < n) (hL1 : 1 ≤ cfg.layers)
    (hcells : ∀ p ∈ cells, WFP cfg.hidden_size p) (hclen : cells.length = cfg.layers)
    (hlen : xs1.length = xs2.length)
    (hxs1 : ∀ x ∈ xs1, x.length = n) (hxs2 : ∀ x ∈ xs2, x.length = n)
    (hrows : ∀ t, t < xs1.length → (xs1.getD t []).getD b [] = (xs2.getD t []).getD b [])
    (hrs : resetsRel n b xs1.length rs1 rs2) :
    (lstmForward sg th cfg cells xs1 rs1).getD b [] =
        (lstmForward sg th cfg cells xs2 rs2).getD b [] ∧
      (run sg th cfg cells xs1 rs1 none).2.2.map (stackRow b) =
        (run sg th cfg cells xs2 rs2 none).2.2.map (stackRow b) := by
  have hcong := run_row_congr sg th cfg cells n b hb xs1 xs2 rs1 rs2 none none
    hlen hxs1 hxs2 hrows hrs (Or.inl ⟨rfl, rfl⟩)
  refine ⟨?_, hcong.2.2⟩
  have hrs1shape : ∀ l, rs1 = some l → l.length = xs1.length ∧ ∀ v ∈ l, v.length = n := by
    intro l hl
    rcases hrs with ⟨h1, _⟩ | ⟨l1, l2, he1, _, hlen1, _, hv1, _, _⟩
    · rw [h1] at hl; cases hl
    · rw [he1] at hl
      rw [← Option.some_inj.mp hl]
      exact ⟨hlen1, hv1⟩
  have hrs2shape : ∀ l, rs2 = some l → l.length = xs2.length ∧ ∀ v ∈ l, v.length = n := by
    intro l hl
    rcases hrs with ⟨_, h2⟩ | ⟨l1, l2, _, he2, _, hlen2, _, hv2, _⟩
    · rw [h2] at hl; cases hl
    · rw [he2] at hl
      rw [← Option.some_inj.mp hl]
      exact ⟨by rw [hlen2, hlen], hv2⟩
  have hsh1 := run_shape sg th cfg cells n hcells hclen hL1 xs1 rs1 none hxs1 hrs1shape
    (fun st h => by cases h)
  have hsh2 := run_shape sg th cfg cells n hcells hclen hL1 xs2 rs2 none hxs2 hrs2shape
    (fun st h => by cases h)
  simp only [lstmForward]
  rw [catTime_getD _ b n (fun o ho => (hsh1.1 o ho).1) hb,
    catTime_getD _ b n (fun o ho => (hsh2.1 o ho).1) hb]
  exact hcong.1

/-- Witness for `batch_row_independent`: two runs with reset value `1` for the
tracked element (above the threshold) at the only timestep. -/
theorem batch_row_independent_witness :
    ((0 : ℕ) < 1 ∧ resetsRel 1 0 1 (some [[(1 : ℚ)]]) (some [[(1 : ℚ)]])) ∧
      ((lstmForward id id cfgOne [cellP] [[[(1 : ℚ)]]] (some [[(1 : ℚ)]])).getD 0 [] =
          (lstmForward id id cfgOne [cellP] [[[(1 : ℚ)]]] (some [[(1 : ℚ)]])).getD 0 [] ∧
        (run id id cfgOne [cellP] [[[(1 : ℚ)]]] (some [[(1 : ℚ)]]) none).2.2.map
            (stackRow 0) =
          (run id id cfgOne [cellP] [[[(1 : ℚ)]]] (some [[(1 : ℚ)]]) none).2.2.map
            (stackRow 0)) :=
  ⟨⟨by decide,
      Or.inr ⟨[[(1 : ℚ)]], [[(1 : ℚ)]], rfl, rfl, by decide, by decide, by decide,
        by decide, by decide⟩⟩,
    batch_row_independent id id cfgOne [cellP] [[[(1 : ℚ)]]] [[[(1 : ℚ)]]]
      (some [[(1 : ℚ)]]) (some [[(1 : ℚ)]]) 1 0 (by decide) (by decide) (by decide)
      (by decide) (by decide) (by decide) (by decide) (by decide)
      (Or.inr ⟨[[(1 : ℚ)]], [[(1 : ℚ)]], rfl, rfl, by decide, by decide, by decide,
        by decide, by decide⟩)⟩

end Pylego

